import Mathlib

/-!
Verification of the Score → Avassa converter core: the manifest synthesizer
(`internal/convert/convert.go`), the generate pipeline and output serializer
(`internal/command/generate.go`), and the placeholder substitution engine
(specified in §4.4 of the design document; its implementation lives in the
external score-go library, so it is modelled from the specification).

Go strings are modelled as Lean `String` (sequences of runes, matching Go's
`for … range` rune iteration).  Unicode-table–driven library behaviour
(`strings.ToLower`, `strings.TrimSpace`) is modelled on the ASCII range, which
covers every character class the converter's own logic distinguishes.
YAML scalar payloads are modelled as null/bool/int/string; float rendering is
orthogonal to every ordering/defaulting property proved here.
-/

deriving instance DecidableEq for Except

namespace AvassaConv

/-! ## Go string helpers (strings / strconv) -/

/-- ASCII white-space set of `strings.TrimSpace` (the Unicode class restricted
to ASCII). -/
def goIsSpace (c : Char) : Bool :=
  c = ' ' || c = '\t' || c = '\n' || c = '\x0b' || c = '\x0c' || c = '\r'

/-- Model of `strings.TrimSpace` on a rune list: drop white space from both
ends. -/
def trimCharsBy (p : Char → Bool) (l : List Char) : List Char :=
  ((l.dropWhile p).reverse.dropWhile p).reverse

/-- Model of `strings.TrimSpace`. -/
def goTrimSpace (s : String) : String :=
  String.mk (trimCharsBy goIsSpace s.toList)

/-- Model of `strings.ToLower` restricted to ASCII letters. -/
def goLowerChar (c : Char) : Char :=
  if 'A' ≤ c ∧ c ≤ 'Z' then Char.ofNat (c.toNat + 32) else c

/-- Model of `strings.ToLower`. -/
def goToLower (s : String) : String :=
  String.mk (s.toList.map goLowerChar)

/-- Model of `strings.Trim(s, "-")`. -/
def goTrimDashes (s : String) : String :=
  String.mk (trimCharsBy (fun c => c = '-') s.toList)

/-- Digit test for `strconv.Atoi`. -/
def isDigitChar (c : Char) : Bool := '0' ≤ c ∧ c ≤ '9'

/-- Digits-to-value helper for the `strconv.Atoi` model. -/
def digitsToNat (l : List Char) : Nat :=
  l.foldl (fun acc c => acc * 10 + (c.toNat - '0'.toNat)) 0

/-- Model of `strconv.Atoi`: optional sign, one or more digits, nothing else,
and the value must fit in a signed 64-bit int (Go returns an error otherwise,
which the converter maps to the default). -/
def goAtoi (s : String) : Option Int :=
  let fin : Bool → List Char → Option Int := fun neg digits =>
    if digits ≠ [] ∧ digits.all isDigitChar then
      let n : Int := Int.ofNat (digitsToNat digits)
      let v : Int := if neg then -n else n
      if -(2 ^ 63) ≤ v ∧ v < 2 ^ 63 then some v else none
    else none
  match s.toList with
  | '+' :: rest => fin false rest
  | '-' :: rest => fin true rest
  | l => fin false l

/-! ## Dynamic YAML values (`map[string]interface{}` trees) -/

/-- Dynamic Go value as decoded from YAML (`interface{}`).  Mappings are kept
as association lists; a list produced by decoding a Go map has pairwise
distinct keys, and list order stands in for Go's (unspecified) map iteration
order. -/
inductive GoVal where
  | null : GoVal
  | bool (b : Bool) : GoVal
  | int (n : Int) : GoVal
  | str (s : String) : GoVal
  | seq (xs : List GoVal) : GoVal
  | map (kvs : List (String × GoVal)) : GoVal

/-- First-match association-list lookup, the model of a Go map read
`m[key]` returning `(value, present)`. -/
def alookup {α : Type} (kvs : List (String × α)) (k : String) : Option α :=
  match kvs.find? (fun p => p.1 = k) with
  | some p => some p.2
  | none => none

/-- Model of `asString` (convert.go): render a dynamic annotation value as a
string, empty string for missing values and any unhandled type. -/
def asString (v : Option GoVal) : String :=
  match v with
  | some (.str s) => s
  | some (.int n) => toString n
  | some (.bool b) => if b then "true" else "false"
  | _ => ""

/-- Model of `asInt` (convert.go): ints pass through, strings go through
`strconv.Atoi` after trimming, everything else yields the default. -/
def asInt (v : Option GoVal) (d : Int) : Int :=
  match v with
  | some (.int n) => n
  | some (.str s) =>
    match goAtoi (goTrimSpace s) with
    | some i => i
    | none => d
  | _ => d

/-- Model of `asBool` (convert.go): bools pass through, only the literal
strings "true"/"false" parse, everything else yields the default. -/
def asBool (v : Option GoVal) (d : Bool) : Bool :=
  match v with
  | some (.bool b) => b
  | some (.str s) => if s = "true" then true else if s = "false" then false else d
  | _ => d

/-- Model of `firstNonEmpty` (convert.go): the first value whose
white-space-trimmed form is non-empty, else the empty string. -/
def firstNonEmpty (values : List String) : String :=
  match values.find? (fun v => goTrimSpace v ≠ "") with
  | some v => v
  | none => ""

/-! ## Name sanitization (`sanitizeName`, convert.go lines 307–335) -/

/-- Character class kept verbatim by `sanitizeName` (`[a-z0-9-]`). -/
def validNameChar (c : Char) : Bool :=
  ('a' ≤ c ∧ c ≤ 'z') || ('0' ≤ c ∧ c ≤ '9') || c = '-'

/-- Alphanumeric class `[a-z0-9]` of the `validNameRe` regex anchors. -/
def alnumChar (c : Char) : Bool :=
  ('a' ≤ c ∧ c ≤ 'z') || ('0' ≤ c ∧ c ≤ '9')

/-- Model of the replacement loop in `sanitizeName`: every rune outside
`[a-z0-9-]` becomes a dash. -/
def replaceInvalid (l : List Char) : List Char :=
  l.map (fun c => if validNameChar c then c else '-')

/-- Tail part of the `validNameRe` semantics: all characters in `[a-z0-9-]`
with the final character in `[a-z0-9]`. -/
def nameReTail : List Char → Bool
  | [] => true
  | [c] => alnumChar c
  | c :: rest => validNameChar c && nameReTail rest

/-- Semantics of `validNameRe = ^[a-z0-9]([a-z0-9-]*[a-z0-9])?$`: non-empty,
first and last characters alphanumeric, interior characters in `[a-z0-9-]`. -/
def nameReMatch : List Char → Bool
  | [] => false
  | [c] => alnumChar c
  | c :: rest => alnumChar c && nameReTail rest

/-- Model of `strings.FieldsFunc(s, r == '-')`: maximal runs of non-dash
characters, empty runs dropped. -/
def dashFields (l : List Char) : List (List Char) :=
  (l.splitOnP (fun c => c = '-')).filter (fun f => f ≠ [])

/-- Model of the collapse arm of `sanitizeName`:
`strings.Trim(strings.Join(strings.FieldsFunc(s, '-'), "-"), "-")`. -/
def collapseDashes (l : List Char) : List Char :=
  trimCharsBy (fun c => c = '-') ((dashFields l).intersperse ['-']).flatten

/-- Model of `sanitizeName` (convert.go): lower-case and trim the input,
return it unchanged when empty, otherwise replace invalid runes with dashes,
trim dashes, fall back to "app" when that is empty, and run the (in fact
always satisfied) `validNameRe` check before the collapse arm. -/
def sanitizeName (s : String) : String :=
  let t := goTrimSpace (goToLower s)
  if t = "" then t
  else
    let s1 := goTrimDashes (String.mk (replaceInvalid t.toList))
    if s1 = "" then "app"
    else if nameReMatch s1.toList then s1
    else
      let s2 := String.mk (collapseDashes s1.toList)
      if s2 = "" then "app" else s2

/-- Name sanitization exactly as the specification words it (§4.6): lowercase,
replace every character outside `[a-z0-9-]` with `-`, trim leading/trailing
`-`, collapse repeated `-`, and fall back to the fixed default identifier when
the result is empty.  Kept separate from `sanitizeName` so the two can be
compared. -/
def specSanitizeName (s : String) : String :=
  let r := goTrimDashes (String.mk (replaceInvalid (goToLower s).toList))
  let c := String.mk (collapseDashes r.toList)
  if c = "" then "app" else c

/-- Sanitization as `sanitizeName` actually behaves: the same pipeline minus
the collapse step, with the empty input mapped to the empty string rather than
the fallback identifier. -/
def sanitizeNameAmended (s : String) : String :=
  let t := goTrimSpace (goToLower s)
  if t = "" then ""
  else
    let s1 := goTrimDashes (String.mk (replaceInvalid t.toList))
    if s1 = "" then "app" else s1

/-! ## Substitution engine

The substitution engine is called through `framework.BuildSubstitutionFunction`
and `framework.SubstituteString` from the external score-go library; its code
is not part of this repository, so it is modelled from §4.4 of the
specification. -/

/-- Modelled from the spec: the scanner underlying `SubstituteString`.  A
literal `$$` yields a literal `$`; a `$\x7b...\x7d` placeholder is resolved by
the reference resolver `sf`, failing the whole substitution when `sf` fails; an
unterminated `$\x7b` and any other character are kept literally.  A resolved
value is spliced in verbatim and never re-scanned.  The scanner consumes at
least one character per step, so the `fuel` argument (initially the input
length) never runs out; the fuel-exhaustion arm is unreachable. -/
def substCharsF (sf : String → Except String String) : Nat → List Char → Except String (List Char)
  | _, [] => .ok []
  | 0, l => .ok l
  | fuel + 1, '$' :: '$' :: rest => do
    let r ← substCharsF sf fuel rest
    .ok ('$' :: r)
  | fuel + 1, '$' :: '{' :: rest =>
    match rest.dropWhile (fun c => c ≠ '}') with
    | '}' :: after => do
      let v ← sf (String.mk (rest.takeWhile (fun c => c ≠ '}')))
      let r ← substCharsF sf fuel after
      .ok (v.toList ++ r)
    | _ => do
      let r ← substCharsF sf fuel rest
      .ok ('$' :: '{' :: r)
  | fuel + 1, c :: rest => do
    let r ← substCharsF sf fuel rest
    .ok (c :: r)

/-- Modelled from the spec: `framework.SubstituteString` applies the resolver
to every `$\x7b...\x7d` placeholder of the string, exactly once, with `$$` as
the escape for a literal `$`. -/
def substituteString (s : String) (sf : String → Except String String) : Except String String :=
  match substCharsF sf s.toList.length s.toList with
  | .ok l => .ok (String.mk l)
  | .error e => .error e

/-- Split a rune list on a separator character (model of `strings.Split`).
Structural, so that concrete references evaluate. -/
def splitOnChar (sep : Char) : List Char → List (List Char)
  | [] => [[]]
  | c :: rest =>
    let r := splitOnChar sep rest
    if c = sep then [] :: r
    else
      match r with
      | f :: fs => (c :: f) :: fs
      | [] => [[c]]

/-- Split a string on dots. -/
def strSplitOnDot (s : String) : List String :=
  (splitOnChar '.' s.toList).map String.mk

/-- Join strings with dots. -/
def joinDots : List String → String
  | [] => ""
  | [x] => x
  | x :: rest => x ++ "." ++ joinDots rest

/-- Resolve a dotted path inside the dynamic metadata tree. -/
def resolvePath : GoVal → List String → Option GoVal
  | v, [] => some v
  | .map kvs, k :: rest =>
    match alookup kvs k with
    | some v => resolvePath v rest
    | none => none
  | _, _ :: _ => none

/-- Render a resolved metadata value as a string; composite values are not
renderable. -/
def renderScalar : GoVal → Option String
  | .str s => some s
  | .int n => some (toString n)
  | .bool b => some (if b then "true" else "false")
  | _ => none

/-- Modelled from the spec: `framework.BuildSubstitutionFunction` (score-go)
resolves `metadata.<path>` against the workload's metadata tree and
`resources.<name>.<key>` against that workload's resource outputs; an unknown
metadata path or an unprovisioned resource output fails with an error naming
the offending reference, never an empty-string fallback. -/
def buildSubstitutionFunction (metadata : List (String × GoVal))
    (outputs : String → String → Option String) : String → Except String String :=
  fun ref =>
    match strSplitOnDot ref with
    | "metadata" :: path =>
      if path = [] then .error s!"invalid reference: {ref}"
      else
        match resolvePath (.map metadata) path with
        | some v =>
          match renderScalar v with
          | some out => .ok out
          | none => .error s!"cannot render composite value: {ref}"
        | none => .error s!"unknown metadata path: {ref}"
    | "resources" :: name :: key :: restKeys =>
      match outputs name (joinDots (key :: restKeys)) with
      | some v => .ok v
      | none => .error s!"resource output not available: {ref}"
    | _ => .error s!"invalid reference: {ref}"

/-! ## Score workload types (subset used by the converter) -/

/-- One HTTP probe header (`scoretypes.HttpProbeHttpHeadersElem`). -/
structure HttpProbeHeader where
  name : String
  value : String

/-- Score HTTP probe shape (`scoretypes.HttpProbe`). -/
structure HttpGetProbe where
  path : String
  port : Int
  scheme : Option String := none
  host : Option String := none
  httpHeaders : List HttpProbeHeader := []

/-- Score exec probe shape (`scoretypes.ExecProbe`). -/
structure ExecProbe where
  command : List String

/-- Score container probe (`scoretypes.ContainerProbe`). -/
structure ContainerProbe where
  exec : Option ExecProbe := none
  httpGet : Option HttpGetProbe := none

/-- Score container file (`scoretypes.ContainerFile`), keyed by target path in
the containing map. -/
structure ContainerFile where
  content : Option String := none
  source : Option String := none
  noExpand : Option Bool := none

/-- Score container (`scoretypes.Container`); maps are association lists. -/
structure ScoreContainer where
  image : String
  command : List String := []
  args : List String := []
  vars : List (String × String) := []
  files : List (String × ContainerFile) := []
  livenessProbe : Option ContainerProbe := none
  readinessProbe : Option ContainerProbe := none

/-! ## Avassa application types (convert.go lines 121–190) -/

/-- Avassa `network` block. -/
structure AvassaNetwork where
  sharedApplicationNetwork : String

/-- Avassa nested `on-mounted-file-change` directive. -/
structure AvassaOnMountedFileChange where
  restart : Bool

/-- Avassa exec probe. -/
structure AvassaExecProbe where
  cmd : List String

/-- Avassa HTTP probe; empty strings and empty lists stand for omitted
`omitempty` fields. -/
structure AvassaHTTPProbe where
  scheme : String := ""
  host : String := ""
  path : String
  port : Int
  requestHeaders : List (String × String) := []

/-- Avassa TCP probe (declared by the converter, never populated). -/
structure AvassaTCPProbe where
  port : Int

/-- Avassa probe spec; the trailing timing fields are declared by the
converter but never populated. -/
structure AvassaProbeSpec where
  http : Option AvassaHTTPProbe := none
  tcp : Option AvassaTCPProbe := none
  exec : Option AvassaExecProbe := none
  initialDelay : String := ""
  timeout : String := ""
  period : String := ""
  successThreshold : Int := 0
  failureThreshold : Int := 0

/-- Avassa probes block. -/
structure AvassaProbes where
  liveness : Option AvassaProbeSpec := none
  readiness : Option AvassaProbeSpec := none

/-- Avassa container (convert.go `avassaContainer`). -/
structure AvassaContainer where
  name : String
  mounts : List GoVal := []
  containerLogSize : String
  containerLogArchive : Bool
  shutdownTimeout : String
  image : String
  cmd : Option (List String) := none
  env : Option (List (String × String)) := none
  approle : String := ""
  onMountedFileChange : Option AvassaOnMountedFileChange := none
  probes : Option AvassaProbes := none

/-- Avassa service (convert.go `avassaService`). -/
structure AvassaService where
  name : String
  mode : String
  replicas : Int
  sharePidNamespace : Bool
  containers : List AvassaContainer := []

/-- Avassa application (convert.go `avassaApplication`). -/
structure AvassaApplication where
  name : String
  version : String := ""
  services : List AvassaService
  onMutableVariableChange : String
  labels : Option (List (String × GoVal)) := none
  network : Option AvassaNetwork := none

/-! ## Probe mapping (`mapScoreProbeToAvassa`, convert.go lines 401–439) -/

/-- Replace the value of the first occurrence of a key, or append. -/
def updateAssoc (kvs : List (String × String)) (k v : String) : List (String × String) :=
  match kvs with
  | [] => [(k, v)]
  | (k', v') :: rest => if k' = k then (k', v) :: rest else (k', v') :: updateAssoc rest k v

/-- Model of the header-normalisation loop: trim names and values, skip empty
names, join duplicate names with ", " when the previous value is non-empty. -/
def normalizeHeaders (hs : List HttpProbeHeader) : List (String × String) :=
  hs.foldl
    (fun acc h =>
      let n := goTrimSpace h.name
      let v := goTrimSpace h.value
      if n = "" then acc
      else
        match alookup acc n with
        | some prev => if prev ≠ "" then updateAssoc acc n (prev ++ ", " ++ v) else updateAssoc acc n v
        | none => acc ++ [(n, v)])
    []

/-- HTTP arm of the probe mapping. -/
def mapHttpProbe (p : ContainerProbe) : Option AvassaProbeSpec :=
  match p.httpGet with
  | some hg =>
    some { http := some {
        scheme := match hg.scheme with | some s => goToLower s | none => ""
      , host := match hg.host with | some h => h | none => ""
      , path := hg.path
      , port := hg.port
      , requestHeaders := normalizeHeaders hg.httpHeaders } }
  | none => none

/-- Model of `mapScoreProbeToAvassa`: exec wins only when present with a
non-empty command, otherwise the HTTP shape is mapped. -/
def mapScoreProbeToAvassa : Option ContainerProbe → Option AvassaProbeSpec
  | none => none
  | some p =>
    match p.exec with
    | some e => if e.command ≠ [] then some { exec := some { cmd := e.command } } else mapHttpProbe p
    | none => mapHttpProbe p

/-! ## Command token conversion (convert.go lines 257–280) -/

/-- Model of the cmd loop of `buildAvassaApplication`: each token is trimmed,
dropped when empty, substituted, trimmed again and dropped when empty; the
first substitution failure aborts.  (The `sf != nil` guard always holds in
this program: the generate pipeline always builds a substitution function.) -/
def convertCmdTokens (tokens : List String) (sf : String → Except String String) :
    Except String (List String) :=
  match tokens with
  | [] => .ok []
  | part :: rest =>
    let p := goTrimSpace part
    if p = "" then convertCmdTokens rest sf
    else
      match substituteString p sf with
      | .error e => .error e
      | .ok s => do
        let restOut ← convertCmdTokens rest sf
        let t := goTrimSpace s
        .ok (if t = "" then restOut else t :: restOut)

/-- Command conversion exactly as the claim words it: the command tokens
followed by the argument tokens, each substituted independently, with empty
and white-space-only tokens dropped; kept for comparison with
`convertCmdTokens`. -/
def specCmdTokens (tokens : List String) (sf : String → Except String String) :
    Except String (List String) := do
  let kept := tokens.filter (fun t => goTrimSpace t ≠ "")
  let subs ← kept.mapM (fun t => substituteString t sf)
  .ok (subs.filter (fun t => goTrimSpace t ≠ ""))

/-! ## Application synthesis (`buildAvassaApplication`, convert.go 192–305) -/

/-- Lexicographic comparison of rune lists by codepoint; for UTF-8 encoded
strings this coincides with Go's byte-wise string order. -/
def charListLe : List Char → List Char → Bool
  | [], _ => true
  | _ :: _, [] => false
  | a :: as, b :: bs =>
    if a.toNat < b.toNat then true
    else if b.toNat < a.toNat then false
    else charListLe as bs

/-- Go string order (`<=`), the order used by `sort.Strings` and
`slices.Sort`. -/
def strLe (a b : String) : Bool := charListLe a.toList b.toList

/-- Insert a key/value pair into a key-sorted association list. -/
def insertByKey {α : Type} (p : String × α) : List (String × α) → List (String × α)
  | [] => [p]
  | q :: rest => if strLe p.1 q.1 then p :: q :: rest else q :: insertByKey p rest

/-- Key-sorted arrangement of an association list; models `sort.Strings` over
the key set of a Go map followed by indexed access (keys are pairwise
distinct, so stability is immaterial). -/
def sortByKey {α : Type} : List (String × α) → List (String × α)
  | [] => []
  | p :: rest => insertByKey p (sortByKey rest)

/-- Annotation map of a workload's metadata (`metadata.annotations` when it is
a mapping, else empty). -/
def annsOf (metadata : List (String × GoVal)) : List (String × GoVal) :=
  match alookup metadata "annotations" with
  | some (.map m) => m
  | _ => []

/-- Model of the per-container body of the synthesis loop. -/
def buildOneContainer (anns : List (String × GoVal)) (workloadName : String)
    (cname : String) (c : ScoreContainer) (sf : String → Except String String) :
    Except String AvassaContainer := do
  let cmd? ←
    if c.command.length + c.args.length > 0 then
      match convertCmdTokens (c.command ++ c.args) sf with
      | .error e => .error s!"workload: {workloadName}: container: {cname}: cmd: {e}"
      | .ok cmdOut => pure (if cmdOut ≠ [] then some cmdOut else none)
    else pure none
  let l := mapScoreProbeToAvassa c.livenessProbe
  let r := mapScoreProbeToAvassa c.readinessProbe
  .ok {
    name := cname
  , mounts := []
  , containerLogSize := firstNonEmpty [asString (alookup anns "avassa.log-size"), "100 MB"]
  , containerLogArchive := asBool (alookup anns "avassa.log-archive") false
  , shutdownTimeout := firstNonEmpty [asString (alookup anns "avassa.shutdown-timeout"), "10s"]
  , image := c.image
  , cmd := cmd?
  , env := if c.vars = [] then none else some c.vars
  , approle := asString (alookup anns "avassa.approle")
  , onMountedFileChange :=
      if asBool (alookup anns "avassa.on-mounted-file-change-restart") false then
        some { restart := true }
      else none
  , probes := if l.isSome ∨ r.isSome then some { liveness := l, readiness := r } else none }

/-- The synthesis loop over the name-sorted containers. -/
def buildContainersLoop (anns : List (String × GoVal)) (workloadName : String)
    (sf : String → Except String String) :
    List (String × ScoreContainer) → Except String (List AvassaContainer)
  | [] => .ok []
  | (cname, c) :: rest => do
    let ac ← buildOneContainer anns workloadName cname c sf
    let acs ← buildContainersLoop anns workloadName sf rest
    .ok (ac :: acs)

/-- Model of `buildAvassaApplication` (convert.go): name sanitization,
annotation-driven defaulting, and the deterministic per-container loop. -/
def buildAvassaApplication (metadata : List (String × GoVal)) (workloadName : String)
    (containers : List (String × ScoreContainer)) (sf : String → Except String String) :
    Except String AvassaApplication := do
  let appName0 := sanitizeName (asString (alookup metadata "name"))
  let appName := if appName0 = "" then sanitizeName workloadName else appName0
  let anns := annsOf metadata
  let acs ← buildContainersLoop anns workloadName sf (sortByKey containers)
  .ok {
    name := appName
  , version := goTrimSpace (asString (alookup anns "avassa.io/version"))
  , services := [{
        name := appName ++ "-service"
      , mode := "replicated"
      , replicas := asInt (alookup anns "avassa.replicas") 1
      , sharePidNamespace := asBool (alookup anns "avassa.share-pid-namespace") false
      , containers := acs }]
  , onMutableVariableChange :=
      let v := asString (alookup anns "avassa.on-mutable-variable-change")
      if v ≠ "" then v else "restart-service-instance"
  , labels :=
      match alookup metadata "labels" with
      | some (.map []) => none
      | some (.map l) => some l
      | _ => none
  , network :=
      let v := asString (alookup anns "avassa.network")
      if v ≠ "" then some { sharedApplicationNetwork := v } else none }

/-! ## Container variable and file conversion (convert.go lines 34–117) -/

/-- Model of `convertContainerVariables`: substitute every variable value,
wrapping a failure with the variable name. -/
def convertContainerVariables (input : List (String × String))
    (sf : String → Except String String) : Except String (List (String × String)) :=
  match input with
  | [] => .ok []
  | (k, v) :: rest =>
    match substituteString v sf with
    | .error e => .error s!"{k}: {e}"
    | .ok out => do
      let r ← convertContainerVariables rest sf
      .ok ((k, out) :: r)

/-- Model of `convertContainerFiles`.  `readFile` stands for the
path-resolution and `os.ReadFile` boundary (resolution of a relative source
against the score file's directory is file-system behaviour, out of scope).
Every emitted file has its content inlined, its source cleared and its
no-expand flag forced to true. -/
def convertContainerFiles (input : List (String × ContainerFile)) (scoreFile : Option String)
    (readFile : Option String → String → Except String String)
    (sf : String → Except String String) : Except String (List (String × ContainerFile)) :=
  match input with
  | [] => .ok []
  | (target, file) :: rest => do
    let content ←
      match file.content with
      | some c => pure c
      | none =>
        match file.source with
        | some src =>
          match readFile scoreFile src with
          | .ok raw => pure raw
          | .error e => Except.error s!"{target}: source: failed to read file: {e}"
        | none => Except.error s!"{target}: missing content or source"
    let content2 ←
      if file.noExpand = none ∨ file.noExpand = some false then
        match substituteString content sf with
        | .ok out => pure out
        | .error e => Except.error s!"{target}: failed to substitute in content: {e}"
      else pure content
    let r ← convertContainerFiles rest scoreFile readFile sf
    .ok ((target, { file with source := none, content := some content2, noExpand := some true }) :: r)

/-- Workload spec as used by `convert.Workload`: metadata plus containers. -/
structure WorkloadSpec where
  metadata : List (String × GoVal)
  containers : List (String × ScoreContainer)

/-- Per-container variable and file substitution pass of `convert.Workload`,
with the workload/container error wrapping. -/
def convPerContainer (workloadName : String) (scoreFile : Option String)
    (readFile : Option String → String → Except String String)
    (sf : String → Except String String) :
    List (String × ScoreContainer) → Except String (List (String × ScoreContainer))
  | [] => .ok []
  | (cname, c) :: rest => do
    let vars ←
      match convertContainerVariables c.vars sf with
      | .error e => Except.error s!"workload: {workloadName}: container: {cname}: variables: {e}"
      | .ok v => pure v
    let files ←
      match convertContainerFiles c.files scoreFile readFile sf with
      | .error e => Except.error s!"workload: {workloadName}: container: {cname}: files: {e}"
      | .ok f => pure f
    let r ← convPerContainer workloadName scoreFile readFile sf rest
    .ok ((cname, { c with vars := vars, files := files }) :: r)

/-- Model of `convert.Workload`: build the substitution function from the
workload's metadata and resource outputs, substitute variables and files of
every container, then synthesize the application.  (The final YAML
marshal/unmarshal round trip through the external YAML library is the
identity on the information content and is not modelled.) -/
def convertWorkload (workloadName : String) (spec : WorkloadSpec) (scoreFile : Option String)
    (outputs : String → String → Option String)
    (readFile : Option String → String → Except String String) :
    Except String AvassaApplication := do
  let sf := buildSubstitutionFunction spec.metadata outputs
  let containers ← convPerContainer workloadName scoreFile readFile sf spec.containers
  buildAvassaApplication spec.metadata workloadName containers sf

/-! ## Output serializer (`toYAMLNode`, generate.go lines 253–318) -/

/-- Move the entry whose key is "name" (first occurrence) to the front,
keeping the relative order of the rest; models the shift loop of
`toYAMLNode`. -/
def moveNameFirst (l : List (String × GoVal)) : List (String × GoVal) :=
  match l.find? (fun p => p.1 = "name") with
  | some p => p :: l.eraseP (fun q => q.1 = "name")
  | none => l

/-- Key arrangement of `toYAMLNode`: keys are sorted lexicographically, and
inside a value whose parent key is "containers" the "name" key is moved to the
front. -/
def arrangeKeys (parentKey : String) (kvs : List (String × GoVal)) : List (String × GoVal) :=
  if parentKey = "containers" then moveNameFirst (sortByKey kvs) else sortByKey kvs

mutual

/-- Model of `toYAMLNode`: rebuild the document with every mapping's entries
arranged by `arrangeKeys`, threading each entry's own key as the parent key of
its value and a sequence's parent key to its elements.  (The Go code arranges
the keys first and then recurses per key; since the arrangement inspects only
keys and the recursion preserves keys, arranging the recursed pairs is the
same function.) -/
def emitNode : GoVal → String → GoVal
  | .null, _ => .null
  | .bool b, _ => .bool b
  | .int n, _ => .int n
  | .str s, _ => .str s
  | .seq xs, pk => .seq (emitNodeList xs pk)
  | .map kvs, pk => .map (arrangeKeys pk (emitNodePairs kvs))
termination_by structural v => v

/-- Elementwise emission of a sequence, each element under the sequence's
parent key. -/
def emitNodeList : List GoVal → String → List GoVal
  | [], _ => []
  | x :: xs, pk => emitNode x pk :: emitNodeList xs pk
termination_by structural l => l

/-- Entrywise emission of a mapping, each value under its own key. -/
def emitNodePairs : List (String × GoVal) → List (String × GoVal)
  | [] => []
  | (k, v) :: rest => (k, emitNode v k) :: emitNodePairs rest
termination_by structural l => l

end

mutual

/-- Deterministic textual rendering of an (already arranged) document node;
abstracts the external YAML encoder, which is a deterministic function of the
node tree. -/
def renderVal : GoVal → String
  | .null => "null"
  | .bool b => if b then "true" else "false"
  | .int n => toString n
  | .str s => "\"" ++ s ++ "\""
  | .seq xs => "[" ++ renderValList xs ++ "]"
  | .map kvs => "\x7b" ++ renderValPairs kvs ++ "\x7d"
termination_by structural v => v

/-- Rendering of sequence elements. -/
def renderValList : List GoVal → String
  | [] => ""
  | [x] => renderVal x
  | x :: xs => renderVal x ++ "," ++ renderValList xs
termination_by structural l => l

/-- Rendering of mapping entries. -/
def renderValPairs : List (String × GoVal) → String
  | [] => ""
  | [(k, v)] => k ++ ":" ++ renderVal v
  | (k, v) :: rest => k ++ ":" ++ renderVal v ++ "," ++ renderValPairs rest
termination_by structural l => l

end

/-! ## Generate pipeline (generate.go) -/

/-- Model of the manifest emission loop of `generateCmd` (generate.go lines
162–175): iterate the workloads map, writing a `---` document separator
followed by each workload's serialized manifest.  `workloads` carries the
already converted manifests; its list order models the iteration order of the
Go map `currentState.Workloads`, which the Go runtime randomizes. -/
def emitManifestDocs (workloads : List (String × GoVal)) : String :=
  workloads.foldl (fun acc p => acc ++ "---\n" ++ renderVal (emitNode p.2 "")) ""

/-- Error message of the multi-file override guard (generate.go line 68). -/
def overridesErrMsg : String :=
  "cannot use --override-property, --overrides-file, or --image when 0 or more than 1 score files are provided"

/-- Insert a string into a sorted list of strings. -/
def insertStr (s : String) : List String → List String
  | [] => [s]
  | t :: rest => if strLe s t then s :: t :: rest else t :: insertStr s rest

/-- Sorted arrangement of a string list; models `slices.Sort(args)`. -/
def sortStrings : List String → List String
  | [] => []
  | s :: rest => insertStr s (sortStrings rest)

/-- Sequential per-file processing loop: the first failure aborts. -/
def goProcessList {α : Type} (f : String → Except String α) :
    List String → Except String (List α)
  | [] => .ok []
  | a :: rest => do
    let x ← f a
    let r ← goProcessList f rest
    .ok (x :: r)

/-- Model of the head of `generateCmd.RunE` (generate.go lines 56–138): load
the state directory, reject override flags unless exactly one score file is
supplied, then process the sorted arguments.  `processArg` stands for the
whole per-file body (read, decode, apply overrides, validate, merge), which is
only reached when the guard passes. -/
def generateRun {α : Type} (stateOk : Bool) (args : List String)
    (ovFileChanged ovPropChanged imageChanged : Bool)
    (processArg : String → Except String α) : Except String (List α) :=
  if stateOk = false then
    .error "state directory does not exist, please run init first"
  else if args.length ≠ 1 ∧ (ovFileChanged ∨ ovPropChanged ∨ imageChanged) then
    .error overridesErrMsg
  else
    goProcessList processArg (sortStrings args)

/-! ## Well-formedness and ordering predicates for the serializer claims -/

/-- Mapping test on dynamic values. -/
def isMapVal : GoVal → Bool
  | .map _ => true
  | _ => false

/-- A value suitable as the value of a "containers" key in a synthesized
manifest: a sequence all of whose elements are mappings. -/
def isSeqOfMaps : GoVal → Bool
  | .seq xs => xs.all isMapVal
  | _ => false

mutual

/-- Well-formedness of a document tree: every value stored under a
"containers" key is a sequence of mappings, recursively.  Every manifest
synthesized by the converter satisfies this (a service's `containers` field is
a list of container objects). -/
def wfDoc : GoVal → Bool
  | .seq xs => wfDocList xs
  | .map kvs => wfDocPairs kvs
  | _ => true
termination_by structural v => v

/-- Well-formedness of sequence elements. -/
def wfDocList : List GoVal → Bool
  | [] => true
  | x :: xs => wfDoc x && wfDocList xs
termination_by structural l => l

/-- Well-formedness of mapping entries. -/
def wfDocPairs : List (String × GoVal) → Bool
  | [] => true
  | (k, v) :: rest => (if k = "containers" then isSeqOfMaps v else true) && wfDoc v && wfDocPairs rest
termination_by structural l => l

end

/-- Keys of an association list. -/
def keysOf {α : Type} (kvs : List (String × α)) : List String := kvs.map Prod.fst

/-- The keys of a mapping are emitted in lexicographic order. -/
def KeysLexSorted (kvs : List (String × GoVal)) : Prop :=
  List.Sorted (fun a b => strLe a b = true) (keysOf kvs)

/-- The "name" key, when present, is emitted first, and all other keys in
lexicographic order. -/
def KeysNameFirst (kvs : List (String × GoVal)) : Prop :=
  ("name" ∈ keysOf kvs →
    ∃ rest, keysOf kvs = "name" :: rest ∧ List.Sorted (fun a b => strLe a b = true) rest)
  ∧ ("name" ∉ keysOf kvs → List.Sorted (fun a b => strLe a b = true) (keysOf kvs))

mutual

/-- Ordering contract of the serializer for an object outside any containers
list: its keys are lexicographically sorted, and the special arrangement
applies below it exactly under "containers" keys. -/
inductive OrderOK : GoVal → Prop where
  | null : OrderOK .null
  | bool : ∀ b, OrderOK (.bool b)
  | int : ∀ n, OrderOK (.int n)
  | str : ∀ s, OrderOK (.str s)
  | seq : ∀ xs, (∀ x ∈ xs, OrderOK x) → OrderOK (.seq xs)
  | map : ∀ kvs, KeysLexSorted kvs →
      (∀ p ∈ kvs, p.1 = "containers" → OrderContainersVal p.2) →
      (∀ p ∈ kvs, p.1 ≠ "containers" → OrderOK p.2) →
      OrderOK (.map kvs)

/-- Ordering contract for the value of a "containers" key: a list whose
element objects are in the containers context. -/
inductive OrderContainersVal : GoVal → Prop where
  | seq : ∀ xs, (∀ x ∈ xs, OrderInContainers x) → OrderContainersVal (.seq xs)

/-- Ordering contract for an object inside a containers list: "name" first,
all other keys lexicographic. -/
inductive OrderInContainers : GoVal → Prop where
  | map : ∀ kvs, KeysNameFirst kvs →
      (∀ p ∈ kvs, p.1 = "containers" → OrderContainersVal p.2) →
      (∀ p ∈ kvs, p.1 ≠ "containers" → OrderOK p.2) →
      OrderInContainers (.map kvs)

end

/-- The avassa.* annotation keys consulted by `buildAvassaApplication`. -/
def avassaAnnKeys : List String :=
  [ "avassa.on-mutable-variable-change", "avassa.network", "avassa.io/version"
  , "avassa.replicas", "avassa.share-pid-namespace", "avassa.log-size"
  , "avassa.log-archive", "avassa.shutdown-timeout", "avassa.approle"
  , "avassa.on-mounted-file-change-restart" ]

/-- No avassa annotation is present in the workload's metadata. -/
def NoAvassaAnns (metadata : List (String × GoVal)) : Prop :=
  ∀ k ∈ avassaAnnKeys, alookup (annsOf metadata) k = none

/-- Success test on `Except` results. -/
def isOkE {e a : Type} : Except e a → Bool
  | .ok _ => true
  | .error _ => false

/-- Failure test on `Except` results. -/
def isErrE {e a : Type} : Except e a → Bool
  | .ok _ => false
  | .error _ => true

/-- The application synthesized from the annotation-free example workload;
used to evaluate the defaulting claim on a concrete input. -/
def c3ExampleApp : AvassaApplication :=
  { name := "example"
  , onMutableVariableChange := "restart-service-instance"
  , services := [{
      name := "example-service"
    , mode := "replicated"
    , replicas := 1
    , sharePidNamespace := false
    , containers := [{
        name := "main"
      , containerLogSize := "100 MB"
      , containerLogArchive := false
      , shutdownTimeout := "10s"
      , image := "img" }] }] }

/-! ## Shared list lemmas -/

theorem mem_of_head?_eq_some {α : Type} {l : List α} {c : α} (h : l.head? = some c) : c ∈ l := by
  cases l with
  | nil => simp at h
  | cons a rest => simp at h; simp [h]

theorem mem_of_getLast?_eq_some {α : Type} {l : List α} {c : α} (h : l.getLast? = some c) :
    c ∈ l := by
  rw [← List.head?_reverse] at h
  have := mem_of_head?_eq_some h
  simpa using this

theorem head_false_of_dropWhile {α : Type} {p : α → Bool} {l : List α} {c : α}
    (h : (l.dropWhile p).head? = some c) : p c = false := by
  have hd := List.head?_dropWhile_not p l
  rw [h] at hd
  exact hd

theorem mem_trimCharsBy {p : Char → Bool} {l : List Char} {c : Char}
    (h : c ∈ trimCharsBy p l) : c ∈ l := by
  simp only [trimCharsBy, List.mem_reverse] at h
  have h2 : c ∈ (l.dropWhile p).reverse := (List.dropWhile_sublist p).subset h
  rw [List.mem_reverse] at h2
  exact (List.dropWhile_sublist p).subset h2

theorem trimCharsBy_getLast_false {p : Char → Bool} {l : List Char} {c : Char}
    (h : (trimCharsBy p l).getLast? = some c) : p c = false := by
  simp only [trimCharsBy, List.getLast?_reverse] at h
  exact head_false_of_dropWhile h

theorem trimCharsBy_head_false {p : Char → Bool} {l : List Char} {c : Char}
    (h : (trimCharsBy p l).head? = some c) : p c = false := by
  simp only [trimCharsBy, List.head?_reverse] at h
  set w := ((l.dropWhile p).reverse).dropWhile p with hw
  have hne : w ≠ [] := by
    intro hnil
    rw [hnil] at h
    simp at h
  obtain ⟨a, ha⟩ := List.dropWhile_suffix (l := (l.dropWhile p).reverse) p
  rw [← hw] at ha
  have h2 : ((l.dropWhile p).reverse).getLast? = some c := by
    rw [← ha, List.getLast?_append_of_ne_nil _ hne]
    exact h
  rw [List.getLast?_reverse] at h2
  exact head_false_of_dropWhile h2

/-! ## Claim C2: name sanitization -/

theorem validNameChar_of_mem_replaceInvalid {l : List Char} {c : Char}
    (h : c ∈ replaceInvalid l) : validNameChar c = true := by
  simp only [replaceInvalid, List.mem_map] at h
  obtain ⟨a, _, ha⟩ := h
  by_cases hv : validNameChar a = true
  · rw [if_pos hv] at ha
    rw [← ha]
    exact hv
  · rw [if_neg hv] at ha
    rw [← ha]
    decide

theorem alnum_of_valid_not_dash {c : Char} (hv : validNameChar c = true) (hd : c ≠ '-') :
    alnumChar c = true := by
  simp only [validNameChar, Bool.or_eq_true, decide_eq_true_eq] at hv
  simp only [alnumChar, Bool.or_eq_true, decide_eq_true_eq]
  rcases hv with (h | h) | h
  · exact Or.inl h
  · exact Or.inr h
  · exact absurd h hd

theorem nameReTail_of (l : List Char) (hv : ∀ c ∈ l, validNameChar c = true)
    (hl : ∀ c, l.getLast? = some c → alnumChar c = true) : nameReTail l = true := by
  induction l with
  | nil => rfl
  | cons c rest ih =>
    cases rest with
    | nil =>
      simp only [nameReTail]
      exact hl c rfl
    | cons d rest' =>
      simp only [nameReTail, Bool.and_eq_true]
      refine ⟨hv c (by simp), ?_⟩
      exact ih (fun x hx => hv x (by simp [hx]))
        (fun x hx => hl x (by rw [List.getLast?_cons_cons]; exact hx))

theorem nameReMatch_of (l : List Char) (hne : l ≠ []) (hv : ∀ c ∈ l, validNameChar c = true)
    (hh : ∀ c, l.head? = some c → alnumChar c = true)
    (hl : ∀ c, l.getLast? = some c → alnumChar c = true) : nameReMatch l = true := by
  cases l with
  | nil => exact absurd rfl hne
  | cons c rest =>
    cases rest with
    | nil =>
      simp only [nameReMatch]
      exact hh c rfl
    | cons d rest' =>
      simp only [nameReMatch, Bool.and_eq_true]
      refine ⟨hh c rfl, ?_⟩
      exact nameReTail_of _ (fun x hx => hv x (by simp [hx]))
        (fun x hx => hl x (by rw [List.getLast?_cons_cons]; exact hx))

theorem trimDashes_nameReMatch {m : List Char} (hv : ∀ c ∈ m, validNameChar c = true)
    (hne : trimCharsBy (fun c => c = '-') m ≠ []) :
    nameReMatch (trimCharsBy (fun c => c = '-') m) = true := by
  apply nameReMatch_of _ hne
  · intro c hc
    exact hv c (mem_trimCharsBy hc)
  · intro c hc
    have hd := trimCharsBy_head_false hc
    simp only [decide_eq_false_iff_not] at hd
    exact alnum_of_valid_not_dash (hv c (mem_trimCharsBy (mem_of_head?_eq_some hc))) hd
  · intro c hc
    have hd := trimCharsBy_getLast_false hc
    simp only [decide_eq_false_iff_not] at hd
    exact alnum_of_valid_not_dash (hv c (mem_trimCharsBy (mem_of_getLast?_eq_some hc))) hd

theorem toList_mk (l : List Char) : (String.mk l).toList = l := rfl

theorem mk_ne_empty_iff (l : List Char) : String.mk l ≠ "" ↔ l ≠ [] := by
  constructor
  · intro h hl
    exact h (by rw [hl])
  · intro h hc
    apply h
    have : (String.mk l).data = ("" : String).data := by rw [hc]
    exact this

theorem sanitize_regex_always {s : String}
    (h1 : goTrimDashes (String.mk (replaceInvalid (goTrimSpace (goToLower s)).toList)) ≠ "") :
    nameReMatch
      (goTrimDashes (String.mk (replaceInvalid (goTrimSpace (goToLower s)).toList))).toList
      = true := by
  show nameReMatch
    (trimCharsBy (fun c => c = '-') (replaceInvalid (goTrimSpace (goToLower s)).toList)) = true
  apply trimDashes_nameReMatch
  · intro c hc
    exact validNameChar_of_mem_replaceInvalid hc
  · intro hc
    apply h1
    show String.mk (trimCharsBy (fun c => c = '-')
      (replaceInvalid (goTrimSpace (goToLower s)).toList)) = ""
    rw [hc]

/-- Claim C2, amended: `sanitizeName` lowercases and trims the name, replaces
every character outside `[a-z0-9-]` with `-`, trims leading and trailing `-`,
and falls back to "app" when a non-empty name reduces to empty; repeated `-`
are never collapsed (the collapse branch is guarded by a regex that is always
satisfied at that point), and an empty or white-space-only name sanitizes to
the empty string.  The claim's two examples hold: "My App!!" sanitizes to
"my-app" and the all-invalid name "!!!" to the fallback "app". -/
theorem c2_sanitize_amended :
    (∀ s, sanitizeName s = sanitizeNameAmended s)
    ∧ sanitizeName "My App!!" = "my-app" ∧ sanitizeName "!!!" = "app" := by
  refine ⟨?_, by decide, by decide⟩
  intro s
  by_cases ht : goTrimSpace (goToLower s) = ""
  · simp [sanitizeName, sanitizeNameAmended, ht]
  · by_cases h1 : goTrimDashes (String.mk (replaceInvalid (goTrimSpace (goToLower s)).toList)) = ""
    · simp only [String.toList] at h1
      simp [sanitizeName, sanitizeNameAmended, String.toList, ht, h1]
    · have hm := sanitize_regex_always h1
      simp only [String.toList] at hm h1
      simp [sanitizeName, sanitizeNameAmended, String.toList, ht, h1, hm]

/-- Claim C2 counterexample: repeated dashes are not collapsed ("a..b"
sanitizes to "a--b" where the claimed pipeline yields "a-b"), and a
white-space-only name sanitizes to the empty string where the claimed
pipeline yields the fallback identifier. -/
theorem c2_counterexample :
    sanitizeName "a..b" = "a--b" ∧ specSanitizeName "a..b" = "a-b"
    ∧ sanitizeName "   " = "" ∧ specSanitizeName "   " = "app" := by
  exact ⟨by decide, by decide, by decide, by decide⟩


theorem except_bind_ok {e a b : Type} (x : a) (f : a → Except e b) :
    (Except.ok (ε := e) x >>= f) = f x := rfl

theorem mem_insertByKey {α : Type} {q p : String × α} :
    ∀ {l : List (String × α)}, q ∈ insertByKey p l ↔ q = p ∨ q ∈ l := by
  intro l
  induction l with
  | nil => simp [insertByKey]
  | cons r rest ih =>
    simp only [insertByKey]
    split
    · simp [List.mem_cons]
    · simp only [List.mem_cons, ih]
      tauto

theorem mem_sortByKey {α : Type} {q : String × α} :
    ∀ {l : List (String × α)}, q ∈ sortByKey l ↔ q ∈ l := by
  intro l
  induction l with
  | nil => simp [sortByKey]
  | cons r rest ih => simp [sortByKey, mem_insertByKey, ih]

theorem buildOneContainer_ok_of_no_cmd {anns : List (String × GoVal)} {wn cname : String}
    {c : ScoreContainer} {sf : String → Except String String}
    (h1 : c.command = []) (h2 : c.args = []) :
    ∃ ac, buildOneContainer anns wn cname c sf = .ok ac := by
  cases hres : buildOneContainer anns wn cname c sf with
  | ok ac => exact ⟨ac, rfl⟩
  | error e =>
    rw [buildOneContainer] at hres
    simp [h1, h2] at hres

theorem buildContainersLoop_ok_of_no_cmd {anns : List (String × GoVal)} {wn : String}
    {sf : String → Except String String} :
    ∀ (l : List (String × ScoreContainer)), (∀ p ∈ l, p.2.command = [] ∧ p.2.args = []) →
      ∃ acs, buildContainersLoop anns wn sf l = .ok acs := by
  intro l h
  induction l with
  | nil => exact ⟨[], rfl⟩
  | cons p rest ih =>
    obtain ⟨cname, c⟩ := p
    obtain ⟨ac, hac⟩ :=
      @buildOneContainer_ok_of_no_cmd anns wn cname c sf
        (h (cname, c) (List.mem_cons_self _ _)).1 (h (cname, c) (List.mem_cons_self _ _)).2
    obtain ⟨acs, hacs⟩ := ih (fun q hq => h q (List.mem_cons_of_mem _ hq))
    refine ⟨ac :: acs, ?_⟩
    simp only [buildContainersLoop, hac, hacs]
    rfl

/-- Claim C10: a metadata annotation value of an unexpected type or with
unparsable content makes the reader fall back to the documented default —
a non-numeric replicas string defaults, a share-pid-namespace string other
than "true"/"false" defaults, non-int/non-string and non-bool/non-string
values default — and malformed annotation values never abort the synthesis:
with no command tokens to substitute, `buildAvassaApplication` succeeds for
every metadata tree. -/
theorem c10_malformed_annotations_default :
    (∀ s d, goAtoi (goTrimSpace s) = none → asInt (some (.str s)) d = d)
    ∧ (∀ s d, s ≠ "true" → s ≠ "false" → asBool (some (.str s)) d = d)
    ∧ (∀ b d, asInt (some (.bool b)) d = d)
    ∧ (∀ d, asInt (some .null) d = d)
    ∧ (∀ n d, asBool (some (.int n)) d = d)
    ∧ (∀ d, asBool (some .null) d = d)
    ∧ (∀ md wn cs sf, (∀ p ∈ cs, p.2.command = [] ∧ p.2.args = []) →
        ∃ app, buildAvassaApplication md wn cs sf = .ok app) := by
  refine ⟨?_, ?_, ?_, ?_, ?_, ?_, ?_⟩
  · intro s d h
    simp [asInt, h]
  · intro s d h1 h2
    simp [asBool, h1, h2]
  · intro b d
    simp [asInt]
  · intro d
    simp [asInt]
  · intro n d
    simp [asBool]
  · intro d
    simp [asBool]
  · intro md wn cs sf h
    obtain ⟨acs, hacs⟩ := @buildContainersLoop_ok_of_no_cmd (annsOf md) wn sf
      (sortByKey cs) (fun p hp => h p (mem_sortByKey.mp hp))
    cases hres : buildAvassaApplication md wn cs sf with
    | ok app => exact ⟨app, rfl⟩
    | error e =>
      rw [buildAvassaApplication] at hres
      simp only [hacs, except_bind_ok] at hres
      exact Except.noConfusion hres

/-- Claim C10 witness: the theorem evaluated at `avassa.replicas = "abc"`,
`avassa.share-pid-namespace = "yes"`, and a workload whose container has no
command tokens. -/
theorem c10_witness :
    asInt (some (.str "abc")) 1 = 1
    ∧ asBool (some (.str "yes")) false = false
    ∧ isOkE (buildAvassaApplication [("name", .str "w")] "w" [("main", { image := "img" })]
        (fun r => .error r)) = true := by
  refine ⟨c10_malformed_annotations_default.1 "abc" 1 (by decide),
    c10_malformed_annotations_default.2.1 "yes" false (by decide) (by decide), ?_⟩
  obtain ⟨app, happ⟩ := c10_malformed_annotations_default.2.2.2.2.2.2
    [("name", .str "w")] "w" [("main", { image := "img" })] (fun r => .error r)
    (by intro p hp; simp at hp; simp [hp])
  rw [happ]
  rfl



/-! ## Claim C8: override flags with not exactly one score file -/

/-- Claim C8: when the number of supplied score files is not exactly one and
any of the override flags was set, the generate invocation fails with the
dedicated error before any score file is processed — the outcome does not
depend on the per-file processing at all — so overrides are only ever applied
in the exactly-one-file case. -/
theorem c8_override_guard {α : Type} :
    ∀ (args : List String) (f1 f2 f3 : Bool) (proc : String → Except String α),
      args.length ≠ 1 → (f1 = true ∨ f2 = true ∨ f3 = true) →
      generateRun true args f1 f2 f3 proc = .error overridesErrMsg
      ∧ ∀ (proc2 : String → Except String α),
          generateRun true args f1 f2 f3 proc = generateRun true args f1 f2 f3 proc2 := by
  intro args f1 f2 f3 proc hlen hflag
  have hcond : args.length ≠ 1 ∧ (f1 = true ∨ f2 = true ∨ f3 = true) := ⟨hlen, hflag⟩
  constructor
  · simp [generateRun, hcond]
  · intro proc2
    simp [generateRun, hcond]

/-- Claim C8 witness: zero score files with the overrides-file flag set fail
with the guard error. -/
theorem c8_witness :
    generateRun true [] true false false (fun s => Except.ok s) = .error overridesErrMsg :=
  (c8_override_guard [] true false false (fun s => Except.ok s) (by decide) (Or.inl rfl)).1

/-! ## Claim C6: probe mapping -/

/-- Claim C6, amended: a liveness/readiness probe declaring both an exec and
an HTTP shape maps to an exec-only Avassa probe (command copied verbatim, no
HTTP probe) provided the exec command list is non-empty; an exec shape with an
empty command list is ignored, and the HTTP shape, when used, maps to the
Avassa HTTP shape with path, port, lowercased scheme, optional host and
normalised request headers. -/
theorem c6_probe_mapping :
    (∀ (p : ContainerProbe) (e : ExecProbe), p.exec = some e → e.command ≠ [] →
        mapScoreProbeToAvassa (some p) = some { exec := some { cmd := e.command } })
    ∧ (∀ (p : ContainerProbe) (h : HttpGetProbe), p.exec = none → p.httpGet = some h →
        mapScoreProbeToAvassa (some p) = some { http := some {
            scheme := (match h.scheme with | some s => goToLower s | none => "")
          , host := (match h.host with | some x => x | none => "")
          , path := h.path, port := h.port
          , requestHeaders := normalizeHeaders h.httpHeaders } })
    ∧ (∀ (p : ContainerProbe) (e : ExecProbe) (h : HttpGetProbe), p.exec = some e →
        e.command = [] → p.httpGet = some h →
        mapScoreProbeToAvassa (some p) = some { http := some {
            scheme := (match h.scheme with | some s => goToLower s | none => "")
          , host := (match h.host with | some x => x | none => "")
          , path := h.path, port := h.port
          , requestHeaders := normalizeHeaders h.httpHeaders } })
    ∧ mapScoreProbeToAvassa none = none := by
  refine ⟨?_, ?_, ?_, rfl⟩
  · intro p e hp hcmd
    simp [mapScoreProbeToAvassa, hp, hcmd]
  · intro p h hp hh
    simp [mapScoreProbeToAvassa, hp, mapHttpProbe, hh]
  · intro p e h hp hcmd hh
    simp [mapScoreProbeToAvassa, hp, hcmd, mapHttpProbe, hh]

/-- Claim C6 witness: a probe with exec command `["ls"]` and an HTTP shape
maps to the exec probe with no HTTP part. -/
theorem c6_witness :
    mapScoreProbeToAvassa
        (some { exec := some { command := ["ls"] }, httpGet := some { path := "/p", port := 80 } })
      = some { exec := some { cmd := ["ls"] } } :=
  c6_probe_mapping.1
    { exec := some { command := ["ls"] }, httpGet := some { path := "/p", port := 80 } }
    { command := ["ls"] } rfl (by decide)

/-- Claim C6 counterexample: with both shapes present but an empty exec
command list, the synthesized probe contains the HTTP probe and no exec probe,
contradicting the claimed unconditional exec preference. -/
theorem c6_counterexample :
    (mapScoreProbeToAvassa
        (some { exec := some { command := [] }, httpGet := some { path := "/p", port := 8080 } })).map
        (fun ps => ps.exec) = some none
    ∧ (mapScoreProbeToAvassa
        (some { exec := some { command := [] }, httpGet := some { path := "/p", port := 8080 } })).map
        (fun ps => ps.http.isSome) = some true := ⟨rfl, rfl⟩



/-! ## Claim C5: command and argument token conversion -/

theorem except_bind_error {e a b : Type} (x : e) (f : a → Except e b) :
    (Except.error (α := a) x >>= f) = .error x := rfl

theorem except_pure {e a : Type} (x : a) : (pure x : Except e a) = .ok x := rfl

theorem exceptb_ok {e a b : Type} (x : a) (f : a → Except e b) :
    (Except.ok (ε := e) x).bind f = f x := rfl

theorem exceptb_error {e a b : Type} (x : e) (f : a → Except e b) :
    (Except.error (α := a) x).bind f = .error x := rfl

theorem exceptm_ok {e a b : Type} (f : a → b) (x : a) :
    (Except.ok (ε := e) x).map f = .ok (f x) := rfl

theorem exceptm_error {e a b : Type} (f : a → b) (x : e) :
    (Except.error (α := a) x).map f = .error x := rfl

theorem dropWhile_eq_self_of_head {α : Type} {p : α → Bool} {l : List α}
    (h : ∀ c, l.head? = some c → p c = false) : l.dropWhile p = l := by
  cases l with
  | nil => rfl
  | cons c rest =>
    have hc := h c rfl
    simp [List.dropWhile_cons, hc]

theorem trimCharsBy_idem (p : Char → Bool) (l : List Char) :
    trimCharsBy p (trimCharsBy p l) = trimCharsBy p l := by
  have h1 : (trimCharsBy p l).dropWhile p = trimCharsBy p l :=
    dropWhile_eq_self_of_head (fun c hc => trimCharsBy_head_false hc)
  have h2 : ((trimCharsBy p l).reverse).dropWhile p = (trimCharsBy p l).reverse := by
    apply dropWhile_eq_self_of_head
    intro c hc
    rw [List.head?_reverse] at hc
    exact trimCharsBy_getLast_false hc
  show ((((trimCharsBy p l).dropWhile p).reverse).dropWhile p).reverse = trimCharsBy p l
  rw [h1, h2]
  exact List.reverse_reverse _

theorem goTrimSpace_idem (s : String) : goTrimSpace (goTrimSpace s) = goTrimSpace s := by
  simp only [goTrimSpace, toList_mk, trimCharsBy_idem]

theorem cct_cons_empty {part : String} {rest : List String} {sf : String → Except String String}
    (hp : goTrimSpace part = "") :
    convertCmdTokens (part :: rest) sf = convertCmdTokens rest sf := by
  conv_lhs => rw [convertCmdTokens]
  simp [hp]

theorem cct_cons_kept {part : String} {rest : List String} {sf : String → Except String String}
    (hp : goTrimSpace part ≠ "") :
    convertCmdTokens (part :: rest) sf =
      (match substituteString (goTrimSpace part) sf with
      | .error e => .error e
      | .ok s => do
        let restOut ← convertCmdTokens rest sf
        .ok (if goTrimSpace s = "" then restOut else goTrimSpace s :: restOut)) := by
  conv_lhs => rw [convertCmdTokens]
  simp [hp]

theorem cct_append (a b : List String) (sf : String → Except String String) :
    convertCmdTokens (a ++ b) sf =
      (convertCmdTokens a sf).bind (fun x => (convertCmdTokens b sf).map (fun y => x ++ y)) := by
  induction a with
  | nil =>
    rw [List.nil_append]
    have h0 : convertCmdTokens ([] : List String) sf = .ok [] := rfl
    rw [h0, exceptb_ok]
    cases hb : convertCmdTokens b sf with
    | error e => rfl
    | ok bOut =>
      rw [exceptm_ok]
      simp
  | cons part rest ih =>
    rw [List.cons_append]
    by_cases hp : goTrimSpace part = ""
    · rw [cct_cons_empty hp, cct_cons_empty hp, ih]
    · rw [cct_cons_kept hp, cct_cons_kept hp]
      cases hs : substituteString (goTrimSpace part) sf with
      | error e =>
        simp only [hs, exceptb_error]
      | ok s =>
        simp only [hs]
        rw [ih]
        cases hr : convertCmdTokens rest sf with
        | error e =>
          simp only [hr, exceptb_error, except_bind_error]
        | ok restOut =>
          simp only [hr, exceptb_ok, except_bind_ok]
          cases hb : convertCmdTokens b sf with
          | error e =>
            simp only [hb, exceptm_error, except_bind_error, exceptb_error]
          | ok bOut =>
            simp only [hb, exceptm_ok, except_bind_ok, exceptb_ok]
            by_cases hts : goTrimSpace s = "" <;> simp [hts]

theorem cct_out_tokens :
    ∀ (tokens : List String) (sf : String → Except String String) (out : List String),
      convertCmdTokens tokens sf = .ok out → ∀ t ∈ out, goTrimSpace t = t ∧ t ≠ "" := by
  intro tokens
  induction tokens with
  | nil =>
    intro sf out hout t ht
    rw [convertCmdTokens] at hout
    cases hout
    simp at ht
  | cons part rest ih =>
    intro sf out hout t ht
    by_cases hp : goTrimSpace part = ""
    · rw [cct_cons_empty hp] at hout
      exact ih sf out hout t ht
    · rw [cct_cons_kept hp] at hout
      cases hs : substituteString (goTrimSpace part) sf with
      | error e =>
        simp only [hs] at hout
        exact Except.noConfusion hout
      | ok s =>
        simp only [hs] at hout
        cases hr : convertCmdTokens rest sf with
        | error e =>
          simp only [hr, except_bind_error] at hout
          exact Except.noConfusion hout
        | ok restOut =>
          simp only [hr, except_bind_ok] at hout
          by_cases hts : goTrimSpace s = ""
          · rw [if_pos hts] at hout
            cases hout
            exact ih sf out hr t ht
          · rw [if_neg hts] at hout
            cases hout
            rcases List.mem_cons.mp ht with h | h
            · subst h
              exact ⟨goTrimSpace_idem s, hts⟩
            · exact ih sf restOut hr t h

/-- Claim C5, amended: the cmd list is assembled from the command tokens
followed by the argument tokens (conversion distributes over the
concatenation), each token is whitespace-trimmed, substituted, and trimmed
again, tokens that are empty or whitespace-only before or after substitution
are dropped, every surviving token is non-empty and trimmed, and the cmd field
is omitted exactly when no token survives. -/
theorem c5_cmd_tokens_amended :
    (∀ a b sf, convertCmdTokens (a ++ b) sf =
        (convertCmdTokens a sf).bind (fun x => (convertCmdTokens b sf).map (fun y => x ++ y)))
    ∧ (∀ tokens sf out, convertCmdTokens tokens sf = .ok out →
        ∀ t ∈ out, goTrimSpace t = t ∧ t ≠ "")
    ∧ (∀ w rest sf, goTrimSpace w = "" →
        convertCmdTokens (w :: rest) sf = convertCmdTokens rest sf)
    ∧ (∀ anns wn cname c sf ac toks, buildOneContainer anns wn cname c sf = .ok ac →
        convertCmdTokens (c.command ++ c.args) sf = .ok toks →
        ac.cmd = if toks = [] then none else some toks)
    ∧ (∀ anns wn cname c sf ac, buildOneContainer anns wn cname c sf = .ok ac →
        isErrE (convertCmdTokens (c.command ++ c.args) sf) = false) := by
  refine ⟨cct_append, cct_out_tokens, ?_, ?_, ?_⟩
  · intro w rest sf hw
    exact cct_cons_empty hw
  · intro anns wn cname c sf ac toks hres htoks
    rw [buildOneContainer] at hres
    by_cases hlen : c.command.length + c.args.length > 0
    · rw [if_pos hlen] at hres
      simp only [htoks, except_pure, except_bind_ok] at hres
      cases hres
      by_cases ht : toks = [] <;> simp [ht]
    · rw [if_neg hlen] at hres
      simp only [Nat.add_eq_zero, not_lt, Nat.le_zero] at hlen
      have hc : c.command = [] := List.length_eq_zero.mp hlen.1
      have ha : c.args = [] := List.length_eq_zero.mp hlen.2
      have h00 : convertCmdTokens (c.command ++ c.args) sf = .ok [] := by
        rw [hc, ha]
        rfl
      rw [h00] at htoks
      have hnil : toks = [] := by
        cases htoks
        rfl
      subst hnil
      simp only [except_pure, except_bind_ok] at hres
      cases hres
      simp
  · intro anns wn cname c sf ac hres
    rw [buildOneContainer] at hres
    by_cases hlen : c.command.length + c.args.length > 0
    · rw [if_pos hlen] at hres
      cases hcc : convertCmdTokens (c.command ++ c.args) sf with
      | error e =>
        simp only [hcc, except_bind_error] at hres
        exact Except.noConfusion hres
      | ok toks => rfl
    · simp only [Nat.add_eq_zero, not_lt, Nat.le_zero] at hlen
      rw [List.length_eq_zero.mp hlen.1, List.length_eq_zero.mp hlen.2]
      rfl

/-- Claim C5 counterexample: a whitespace-padded token is trimmed by the
converter, so the synthesized cmd list differs from the claimed list of
substituted tokens: the token "  echo  " (substitution is the identity on it)
becomes "echo", not "  echo  ". -/
theorem c5_counterexample :
    convertCmdTokens ["  echo  "] (fun r => .error r) = .ok ["echo"]
    ∧ specCmdTokens ["  echo  "] (fun r => .error r) = .ok ["  echo  "]
    ∧ ("echo" : String) ≠ "  echo  " := ⟨rfl, rfl, by decide⟩

/-- Claim C5 witness: the amended theorem evaluated on a container with
command `["echo"]` and args `[" ", "hi"]`: the whitespace-only token is
dropped, the survivors are trimmed, and cmd is the non-empty token list. -/
theorem c5_witness :
    convertCmdTokens (["echo"] ++ [" ", "hi"]) (fun r => .error r) = .ok ["echo", "hi"]
    ∧ ({ name := "main", containerLogSize := "100 MB", containerLogArchive := false,
         shutdownTimeout := "10s", image := "i",
         cmd := some ["echo", "hi"] } : AvassaContainer).cmd
        = (if (["echo", "hi"] : List String) = [] then none else some ["echo", "hi"]) := by
  refine ⟨rfl, ?_⟩
  exact c5_cmd_tokens_amended.2.2.2.1 [] "w" "main"
    { image := "i", command := ["echo"], args := [" ", "hi"] } (fun r => .error r)
    { name := "main", containerLogSize := "100 MB", containerLogArchive := false,
      shutdownTimeout := "10s", image := "i", cmd := some ["echo", "hi"] }
    ["echo", "hi"] rfl rfl


/-! ## Substitution engine lemmas (shared by the reference-error and
single-pass claims) -/

theorem mk_toList (s : String) : String.mk s.toList = s := rfl

theorem toList_append (a b : String) : (a ++ b).toList = a.toList ++ b.toList :=
  String.data_append a b

theorem takeWhile_append_all {α : Type} {p : α → Bool} {l m : List α}
    (h : ∀ c ∈ l, p c = true) : (l ++ m).takeWhile p = l ++ m.takeWhile p := by
  induction l with
  | nil => rfl
  | cons c rest ih =>
    simp [List.takeWhile_cons, h c (List.mem_cons_self _ _),
      ih (fun x hx => h x (List.mem_cons_of_mem _ hx))]

theorem dropWhile_append_all {α : Type} {p : α → Bool} {l m : List α}
    (h : ∀ c ∈ l, p c = true) : (l ++ m).dropWhile p = m.dropWhile p := by
  induction l with
  | nil => rfl
  | cons c rest ih =>
    rw [List.cons_append, List.dropWhile_cons, h c (List.mem_cons_self _ _)]
    exact ih (fun x hx => h x (List.mem_cons_of_mem _ hx))

/-- A single placeholder whose reference contains no closing brace is
resolved by exactly one call to the resolver and its result (value or error)
is returned as is — in particular the resolved value is spliced verbatim and
not re-scanned, and a resolver error is the substitution's error. -/
theorem substituteString_single_ref (r : String) (sf : String → Except String String)
    (h : '}' ∉ r.toList) :
    substituteString ("$\x7b" ++ r ++ "\x7d") sf = sf r := by
  have hp : ∀ c ∈ r.toList, (fun c => decide (c ≠ '}')) c = true := by
    intro c hc
    simp only [decide_eq_true_eq]
    intro he
    exact h (he ▸ hc)
  have heq : ("$\x7b" ++ r ++ "\x7d").toList = '$' :: '{' :: (r.toList ++ ['}']) := by
    show ("$\x7b" ++ r ++ "\x7d").data = _
    rw [String.data_append, String.data_append]
    rfl
  rw [substituteString, heq]
  simp only [List.length_cons]
  rw [substCharsF]
  have hdw : (r.toList ++ ['}']).dropWhile (fun c => decide (c ≠ '}')) = ['}'] := by
    rw [dropWhile_append_all hp]
    rfl
  have htw : (r.toList ++ ['}']).takeWhile (fun c => decide (c ≠ '}')) = r.toList := by
    rw [takeWhile_append_all hp]
    simp
  rw [hdw, htw, mk_toList]
  cases hsf : sf r with
  | error e => rfl
  | ok v =>
    show (do
      let r2 ← substCharsF sf ((r.toList ++ ['}']).length + 1) []
      Except.ok (v.toList ++ r2) : Except String (List Char)).map String.mk = Except.ok v
    have h0 : substCharsF sf ((r.toList ++ ['}']).length + 1) [] = .ok [] := rfl
    rw [h0, except_bind_ok]
    rw [List.append_nil]
    rfl



/-! ## Claim C4: unresolved references fail the conversion -/

theorem isErrE_bind {e a b : Type} {x : Except e a} (h : isErrE x = true) (g : a → Except e b) :
    isErrE (x >>= g) = true := by
  cases x with
  | error e0 => rfl
  | ok v => simp [isErrE] at h

theorem isErrE_ok_elim {e a : Type} {x : a} (h : isErrE (Except.ok (ε := e) x) = true) : False := by
  simp [isErrE] at h

theorem ccv_err_of_mem :
    ∀ (input : List (String × String)) (sf : String → Except String String),
      (∃ p ∈ input, isErrE (substituteString p.2 sf) = true) →
      isErrE (convertContainerVariables input sf) = true := by
  intro input sf h
  induction input with
  | nil =>
    obtain ⟨p, hp, _⟩ := h
    simp at hp
  | cons q rest ih =>
    obtain ⟨k, v⟩ := q
    rw [convertContainerVariables]
    cases hs : substituteString v sf with
    | error e => rfl
    | ok outv =>
      obtain ⟨p, hp, herr⟩ := h
      rcases List.mem_cons.mp hp with hqp | hqrest
      · rw [hqp, hs] at herr
        exact absurd herr (by simp [isErrE])
      · have hrest := ih ⟨p, hqrest, herr⟩
        show isErrE ((convertContainerVariables rest sf) >>=
          (fun r => Except.ok ((k, outv) :: r))) = true
        exact isErrE_bind hrest _

theorem ccf_err_of_mem :
    ∀ (input : List (String × ContainerFile)) (scoreFile : Option String)
      (readFile : Option String → String → Except String String)
      (sf : String → Except String String),
      (∃ p ∈ input, ∃ c, p.2.content = some c ∧
        (p.2.noExpand = none ∨ p.2.noExpand = some false) ∧
        isErrE (substituteString c sf) = true) →
      isErrE (convertContainerFiles input scoreFile readFile sf) = true := by
  intro input scoreFile readFile sf h
  induction input with
  | nil =>
    obtain ⟨p, hp, _⟩ := h
    simp at hp
  | cons q rest ih =>
    obtain ⟨target, file⟩ := q
    obtain ⟨p, hp, c, hc, hne, herr⟩ := h
    rw [convertContainerFiles]
    rcases List.mem_cons.mp hp with hqp | hqrest
    · subst hqp
      have hc2 : file.content = some c := hc
      have hne2 : file.noExpand = none ∨ file.noExpand = some false := hne
      simp only [hc2, except_pure, except_bind_ok]
      rw [if_pos hne2]
      cases hs : substituteString c sf with
      | error e => rfl
      | ok out =>
        rw [hs] at herr
        exact absurd herr (by simp [isErrE])
    · have hrest := ih ⟨p, hqrest, c, hc, hne, herr⟩
      cases hcont : file.content with
      | some c1 =>
        simp only [hcont, except_pure, except_bind_ok]
        by_cases hne1 : file.noExpand = none ∨ file.noExpand = some false
        · rw [if_pos hne1]
          cases hs : substituteString c1 sf with
          | error e => rfl
          | ok out2 =>
            show isErrE ((convertContainerFiles rest scoreFile readFile sf) >>=
              (fun r => Except.ok ((target,
                { file with source := none, content := some out2, noExpand := some true }) :: r)))
              = true
            exact isErrE_bind hrest _
        · rw [if_neg hne1]
          show isErrE ((convertContainerFiles rest scoreFile readFile sf) >>=
            (fun r => Except.ok ((target,
              { file with source := none, content := some c1, noExpand := some true }) :: r)))
            = true
          exact isErrE_bind hrest _
      | none =>
        cases hsrc : file.source with
        | some srcp =>
          cases hrf : readFile scoreFile srcp with
          | error e =>
            simp only [hcont, hsrc, hrf]
            rfl
          | ok raw =>
            simp only [hcont, hsrc, hrf, except_pure, except_bind_ok]
            by_cases hne1 : file.noExpand = none ∨ file.noExpand = some false
            · rw [if_pos hne1]
              cases hs : substituteString raw sf with
              | error e => rfl
              | ok out2 =>
                show isErrE ((convertContainerFiles rest scoreFile readFile sf) >>=
                  (fun r => Except.ok ((target,
                    { file with source := none, content := some out2, noExpand := some true }) :: r)))
                  = true
                exact isErrE_bind hrest _
            · rw [if_neg hne1]
              show isErrE ((convertContainerFiles rest scoreFile readFile sf) >>=
                (fun r => Except.ok ((target,
                  { file with source := none, content := some raw, noExpand := some true }) :: r)))
                = true
              exact isErrE_bind hrest _
        | none =>
          simp only [hcont, hsrc]
          rfl

theorem cct_err_of_mem :
    ∀ (tokens : List String) (sf : String → Except String String),
      (∃ t ∈ tokens, goTrimSpace t ≠ "" ∧
        isErrE (substituteString (goTrimSpace t) sf) = true) →
      isErrE (convertCmdTokens tokens sf) = true := by
  intro tokens sf h
  induction tokens with
  | nil =>
    obtain ⟨t, ht, _⟩ := h
    simp at ht
  | cons part rest ih =>
    obtain ⟨t, ht, htne, herr⟩ := h
    by_cases hp : goTrimSpace part = ""
    · rw [cct_cons_empty hp]
      rcases List.mem_cons.mp ht with hq | hq
      · subst hq
        exact absurd hp htne
      · exact ih ⟨t, hq, htne, herr⟩
    · rw [cct_cons_kept hp]
      cases hs : substituteString (goTrimSpace part) sf with
      | error e => rfl
      | ok s =>
        rcases List.mem_cons.mp ht with hq | hq
        · subst hq
          rw [hs] at herr
          exact absurd herr (by simp [isErrE])
        · have hrest := ih ⟨t, hq, htne, herr⟩
          show isErrE ((convertCmdTokens rest sf) >>=
            (fun restOut => Except.ok
              (if goTrimSpace s = "" then restOut else goTrimSpace s :: restOut))) = true
          exact isErrE_bind hrest _

theorem convPerContainer_err :
    ∀ (containers : List (String × ScoreContainer)) (wn : String) (scoreFile : Option String)
      (readFile : Option String → String → Except String String)
      (sf : String → Except String String),
      (∃ q ∈ containers, ∃ p ∈ q.2.vars, isErrE (substituteString p.2 sf) = true) →
      isErrE (convPerContainer wn scoreFile readFile sf containers) = true := by
  intro containers wn scoreFile readFile sf h
  induction containers with
  | nil =>
    obtain ⟨q, hq, _⟩ := h
    simp at hq
  | cons qc rest ih =>
    obtain ⟨cname, c⟩ := qc
    obtain ⟨q, hq, p, hpv, herr⟩ := h
    rw [convPerContainer]
    cases hv : convertContainerVariables c.vars sf with
    | error e => rfl
    | ok vars =>
      rcases List.mem_cons.mp hq with hhd | hrest0
      · have hϵ : isErrE (convertContainerVariables c.vars sf) = true := by
          apply ccv_err_of_mem
          refine ⟨p, ?_, herr⟩
          rw [hhd] at hpv
          exact hpv
        rw [hv] at hϵ
        exact absurd hϵ (by simp [isErrE])
      · cases hf : convertContainerFiles c.files scoreFile readFile sf with
        | error e => rfl
        | ok files =>
          have hr2 := ih ⟨q, hrest0, p, hpv, herr⟩
          show isErrE ((convPerContainer wn scoreFile readFile sf rest) >>=
            (fun r => Except.ok ((cname, { c with vars := vars, files := files }) :: r))) = true
          exact isErrE_bind hr2 _

theorem convertWorkload_err :
    ∀ (wn : String) (spec : WorkloadSpec) (scoreFile : Option String)
      (outputs : String → String → Option String)
      (readFile : Option String → String → Except String String),
      (∃ q ∈ spec.containers, ∃ p ∈ q.2.vars,
        isErrE (substituteString p.2 (buildSubstitutionFunction spec.metadata outputs)) = true) →
      isErrE (convertWorkload wn spec scoreFile outputs readFile) = true := by
  intro wn spec scoreFile outputs readFile h
  have hpc := convPerContainer_err spec.containers wn scoreFile readFile
    (buildSubstitutionFunction spec.metadata outputs) h
  rw [convertWorkload]
  show isErrE ((convPerContainer wn scoreFile readFile
    (buildSubstitutionFunction spec.metadata outputs) spec.containers) >>=
    (fun containers => buildAvassaApplication spec.metadata wn containers
      (buildSubstitutionFunction spec.metadata outputs))) = true
  exact isErrE_bind hpc _

/-- Claim C4: an unresolved `metadata.<path>` or unprovisioned
`resources.<name>.<key>` reference makes the resolver fail with an error
naming the reference (never a silent empty string); a resolver failure is the
failure of the enclosing substitution, and a failing substitution in any
container variable, file content, or command token fails the whole conversion
of the workload (wrapped with the workload/container/site on the way up). -/
theorem c4_unresolved_reference_fails :
    (∀ (md : List (String × GoVal)) (outs : String → String → Option String) ref path,
        strSplitOnDot ref = "metadata" :: path → path ≠ [] →
        resolvePath (.map md) path = none →
        buildSubstitutionFunction md outs ref = .error s!"unknown metadata path: {ref}")
    ∧ (∀ (md : List (String × GoVal)) (outs : String → String → Option String) ref n k ks,
        strSplitOnDot ref = "resources" :: n :: k :: ks →
        outs n (joinDots (k :: ks)) = none →
        buildSubstitutionFunction md outs ref = .error s!"resource output not available: {ref}")
    ∧ (∀ (r : String) (sf : String → Except String String) (e : String), '}' ∉ r.toList →
        sf r = .error e → substituteString ("$\x7b" ++ r ++ "\x7d") sf = .error e)
    ∧ (∀ input sf, (∃ p ∈ input, isErrE (substituteString p.2 sf) = true) →
        isErrE (convertContainerVariables input sf) = true)
    ∧ (∀ input scoreFile readFile sf, (∃ p ∈ input, ∃ c, p.2.content = some c ∧
          (p.2.noExpand = none ∨ p.2.noExpand = some false) ∧
          isErrE (substituteString c sf) = true) →
        isErrE (convertContainerFiles input scoreFile readFile sf) = true)
    ∧ (∀ tokens sf, (∃ t ∈ tokens, goTrimSpace t ≠ "" ∧
          isErrE (substituteString (goTrimSpace t) sf) = true) →
        isErrE (convertCmdTokens tokens sf) = true)
    ∧ (∀ wn spec scoreFile outputs readFile,
        (∃ q ∈ spec.containers, ∃ p ∈ q.2.vars,
          isErrE (substituteString p.2 (buildSubstitutionFunction spec.metadata outputs)) = true) →
        isErrE (convertWorkload wn spec scoreFile outputs readFile) = true) := by
  refine ⟨?_, ?_, ?_, ccv_err_of_mem, ccf_err_of_mem, cct_err_of_mem, convertWorkload_err⟩
  · intro md outs ref path hsplit hpath hres
    rw [buildSubstitutionFunction]
    rw [hsplit]
    simp [hpath, hres]
  · intro md outs ref n k ks hsplit houts
    rw [buildSubstitutionFunction]
    rw [hsplit]
    simp [houts]
  · intro r sf e hbr hsf
    rw [substituteString_single_ref r sf hbr, hsf]

/-- Claim C4 witness: the reference `metadata.missing` on empty metadata
fails with the naming error, and a workload whose container variable uses it
fails to convert. -/
theorem c4_witness :
    buildSubstitutionFunction [] (fun n k => none) "metadata.missing"
      = .error "unknown metadata path: metadata.missing"
    ∧ isErrE (convertWorkload "w"
        { metadata := [], containers := [("main",
          { image := "i", vars := [("K", "$\x7bmetadata.missing\x7d")] })] }
        none (fun n k => none) (fun a b => .error "io")) = true := by
  constructor
  · exact c4_unresolved_reference_fails.1 [] (fun n k => none) "metadata.missing" ["missing"]
      (by decide) (by decide) rfl
  · apply c4_unresolved_reference_fails.2.2.2.2.2.2 "w"
      { metadata := [], containers := [("main",
        { image := "i", vars := [("K", "$\x7bmetadata.missing\x7d")] })] }
      none (fun n k => none) (fun a b => .error "io")
    refine ⟨("main", { image := "i", vars := [("K", "$\x7bmetadata.missing\x7d")] }),
      List.mem_cons_self _ _, ("K", "$\x7bmetadata.missing\x7d"), List.mem_cons_self _ _, ?_⟩
    rfl



/-! ## Claim C9: substitution is single-pass; files are inlined -/

theorem ccf_out_files :
    ∀ (input : List (String × ContainerFile)) (scoreFile : Option String)
      (readFile : Option String → String → Except String String)
      (sf : String → Except String String) (out : List (String × ContainerFile)),
      convertContainerFiles input scoreFile readFile sf = .ok out →
      ∀ p ∈ out, p.2.source = none ∧ p.2.noExpand = some true ∧ ∃ c, p.2.content = some c := by
  intro input scoreFile readFile sf
  induction input with
  | nil =>
    intro out hout p hp
    rw [convertContainerFiles] at hout
    cases hout
    simp at hp
  | cons q rest ih =>
    obtain ⟨target, file⟩ := q
    intro out hout p hp
    have tailStep : ∀ (content2 : String),
        ((convertContainerFiles rest scoreFile readFile sf) >>= (fun r =>
          Except.ok ((target, { file with source := none, content := some content2, noExpand := some true }) :: r))) = .ok out →
        p.2.source = none ∧ p.2.noExpand = some true ∧ ∃ c, p.2.content = some c := by
      intro content2 h0
      cases hr : convertContainerFiles rest scoreFile readFile sf with
      | error e =>
        rw [hr, except_bind_error] at h0
        exact Except.noConfusion h0
      | ok r0 =>
        rw [hr, except_bind_ok] at h0
        cases h0
        rcases List.mem_cons.mp hp with hh | hh
        · subst hh
          exact ⟨rfl, rfl, content2, rfl⟩
        · exact ih r0 hr p hh
    rw [convertContainerFiles] at hout
    cases hcont : file.content with
    | some c1 =>
      simp only [hcont, except_pure, except_bind_ok] at hout
      by_cases hne1 : file.noExpand = none ∨ file.noExpand = some false
      · rw [if_pos hne1] at hout
        cases hs : substituteString c1 sf with
        | error e =>
          simp only [hs, except_bind_error] at hout
          exact Except.noConfusion hout
        | ok out2 =>
          simp only [hs, except_pure, except_bind_ok] at hout
          exact tailStep out2 hout
      · rw [if_neg hne1] at hout
        exact tailStep c1 hout
    | none =>
      cases hsrc : file.source with
      | some srcp =>
        cases hrf : readFile scoreFile srcp with
        | error e =>
          simp only [hcont, hsrc, hrf, except_bind_error] at hout
          exact Except.noConfusion hout
        | ok raw =>
          simp only [hcont, hsrc, hrf, except_pure, except_bind_ok] at hout
          by_cases hne1 : file.noExpand = none ∨ file.noExpand = some false
          · rw [if_pos hne1] at hout
            cases hs : substituteString raw sf with
            | error e =>
              simp only [hs, except_bind_error] at hout
              exact Except.noConfusion hout
            | ok out2 =>
              simp only [hs, except_pure, except_bind_ok] at hout
              exact tailStep out2 hout
          · rw [if_neg hne1] at hout
            exact tailStep raw hout
      | none =>
        simp only [hcont, hsrc, except_bind_error] at hout
        exact Except.noConfusion hout

/-- Claim C9: substitution is applied exactly once per string and is not
recursive: a placeholder's resolved value is returned verbatim even when it
itself contains placeholder syntax (shown both in general and on the concrete
reference `a` resolving to the literal text of a `b` placeholder); and every
container file emitted by the conversion has its content inlined, its source
cleared, and its no-expand flag forced to true. -/
theorem c9_single_pass_substitution :
    (∀ (r : String) (sf : String → Except String String) (v : String), '}' ∉ r.toList →
        sf r = .ok v → substituteString ("$\x7b" ++ r ++ "\x7d") sf = .ok v)
    ∧ substituteString "$\x7ba\x7d"
        (fun r => if r = "a" then .ok "$\x7bb\x7d" else .error "no") = .ok "$\x7bb\x7d"
    ∧ (∀ input scoreFile readFile sf out,
        convertContainerFiles input scoreFile readFile sf = .ok out →
        ∀ p ∈ out, p.2.source = none ∧ p.2.noExpand = some true ∧ ∃ c, p.2.content = some c) := by
  refine ⟨?_, rfl, ccf_out_files⟩
  intro r sf v hbr hsf
  rw [substituteString_single_ref r sf hbr, hsf]

/-- Claim C9 witness: the single-reference splice evaluated at reference "a"
resolving to "v1", and the file conversion of an inline-content file whose
output has source cleared and no-expand forced. -/
theorem c9_witness :
    substituteString "$\x7ba\x7d" (fun r => if r = "a" then .ok "v1" else .error "no") = .ok "v1"
    ∧ (("t", ({ content := some "x", source := none, noExpand := some true } : ContainerFile)) :
        String × ContainerFile).2.source = none
    ∧ (("t", ({ content := some "x", source := none, noExpand := some true } : ContainerFile)) :
        String × ContainerFile).2.noExpand = some true := by
  refine ⟨?_, ?_, ?_⟩
  · exact c9_single_pass_substitution.1 "a" (fun r => if r = "a" then .ok "v1" else .error "no")
      "v1" (by decide) rfl
  · exact (c9_single_pass_substitution.2.2
      [("t", { content := some "x" })] none (fun a b => .error "io") (fun r => .error r)
      [("t", { content := some "x", source := none, noExpand := some true })] rfl
      ("t", { content := some "x", source := none, noExpand := some true })
      (List.mem_cons_self _ _)).1
  · exact (c9_single_pass_substitution.2.2
      [("t", { content := some "x" })] none (fun a b => .error "io") (fun r => .error r)
      [("t", { content := some "x", source := none, noExpand := some true })] rfl
      ("t", { content := some "x", source := none, noExpand := some true })
      (List.mem_cons_self _ _)).2.1



/-! ## Claim C3: annotation-driven defaulting -/

theorem buildOneContainer_fields :
    ∀ (anns : List (String × GoVal)) (wn cname : String) (c : ScoreContainer)
      (sf : String → Except String String) (ac : AvassaContainer),
      buildOneContainer anns wn cname c sf = .ok ac →
      ac.name = cname
      ∧ ac.containerLogSize = firstNonEmpty [asString (alookup anns "avassa.log-size"), "100 MB"]
      ∧ ac.containerLogArchive = asBool (alookup anns "avassa.log-archive") false
      ∧ ac.shutdownTimeout =
          firstNonEmpty [asString (alookup anns "avassa.shutdown-timeout"), "10s"]
      ∧ ac.approle = asString (alookup anns "avassa.approle")
      ∧ ac.onMountedFileChange =
          (if asBool (alookup anns "avassa.on-mounted-file-change-restart") false then
            some { restart := true }
          else none) := by
  intro anns wn cname c sf ac hres
  rw [buildOneContainer] at hres
  by_cases hlen : c.command.length + c.args.length > 0
  · rw [if_pos hlen] at hres
    cases hc : convertCmdTokens (c.command ++ c.args) sf with
    | error e =>
      simp only [hc, except_bind_error] at hres
      exact Except.noConfusion hres
    | ok cmdOut =>
      simp only [hc, except_pure, except_bind_ok] at hres
      cases hres
      exact ⟨rfl, rfl, rfl, rfl, rfl, rfl⟩
  · rw [if_neg hlen] at hres
    simp only [except_pure, except_bind_ok] at hres
    cases hres
    exact ⟨rfl, rfl, rfl, rfl, rfl, rfl⟩

theorem buildContainersLoop_mem :
    ∀ (anns : List (String × GoVal)) (wn : String) (sf : String → Except String String)
      (l : List (String × ScoreContainer)) (acs : List AvassaContainer),
      buildContainersLoop anns wn sf l = .ok acs →
      ∀ ac ∈ acs, ∃ p ∈ l, buildOneContainer anns wn p.1 p.2 sf = .ok ac := by
  intro anns wn sf l
  induction l with
  | nil =>
    intro acs hacs ac hac
    rw [buildContainersLoop] at hacs
    cases hacs
    simp at hac
  | cons q rest ih =>
    obtain ⟨cname, c⟩ := q
    intro acs hacs ac hac
    rw [buildContainersLoop] at hacs
    cases h1 : buildOneContainer anns wn cname c sf with
    | error e =>
      rw [h1, except_bind_error] at hacs
      exact Except.noConfusion hacs
    | ok ac1 =>
      rw [h1, except_bind_ok] at hacs
      cases h2 : buildContainersLoop anns wn sf rest with
      | error e =>
        rw [h2, except_bind_error] at hacs
        exact Except.noConfusion hacs
      | ok acs1 =>
        rw [h2, except_bind_ok] at hacs
        cases hacs
        rcases List.mem_cons.mp hac with hh | hh
        · subst hh
          exact ⟨(cname, c), List.mem_cons_self _ _, h1⟩
        · obtain ⟨p, hpmem, hpok⟩ := ih acs1 h2 ac hh
          exact ⟨p, List.mem_cons_of_mem _ hpmem, hpok⟩

theorem buildAvassaApplication_shape :
    ∀ (md : List (String × GoVal)) (wn : String) (cs : List (String × ScoreContainer))
      (sf : String → Except String String) (app : AvassaApplication),
      buildAvassaApplication md wn cs sf = .ok app →
      app.onMutableVariableChange =
        (if asString (alookup (annsOf md) "avassa.on-mutable-variable-change") ≠ "" then
          asString (alookup (annsOf md) "avassa.on-mutable-variable-change")
        else "restart-service-instance")
      ∧ app.network =
        (if asString (alookup (annsOf md) "avassa.network") ≠ "" then
          some { sharedApplicationNetwork := asString (alookup (annsOf md) "avassa.network") }
        else none)
      ∧ ∃ acs, buildContainersLoop (annsOf md) wn sf (sortByKey cs) = .ok acs
          ∧ app.services = [{
              name := (if sanitizeName (asString (alookup md "name")) = "" then sanitizeName wn
                else sanitizeName (asString (alookup md "name"))) ++ "-service"
            , mode := "replicated"
            , replicas := asInt (alookup (annsOf md) "avassa.replicas") 1
            , sharePidNamespace := asBool (alookup (annsOf md) "avassa.share-pid-namespace") false
            , containers := acs }] := by
  intro md wn cs sf app hb
  rw [buildAvassaApplication] at hb
  cases hloop : buildContainersLoop (annsOf md) wn sf (sortByKey cs) with
  | error e =>
    simp only [hloop, except_bind_error] at hb
    exact Except.noConfusion hb
  | ok acs =>
    simp only [hloop, except_bind_ok] at hb
    cases hb
    exact ⟨rfl, rfl, acs, rfl, rfl⟩

/-- Claim C3: with none of the avassa annotations present, the synthesized
application carries the documented defaults (replicas 1, share-pid-namespace
false, container-log-size "100 MB", container-log-archive false,
shutdown-timeout "10s", on-mutable-variable-change "restart-service-instance",
no network block, empty approle, no on-mounted-file-change directive), and
each setting is overridden by its annotation, the network/approle/restart
directives appearing only when their annotation is present (restart only when
true). -/
theorem c3_annotation_defaults :
    ∀ (md : List (String × GoVal)) (wn : String) (cs : List (String × ScoreContainer))
      (sf : String → Except String String) (app : AvassaApplication),
      buildAvassaApplication md wn cs sf = .ok app →
      (NoAvassaAnns md →
        app.onMutableVariableChange = "restart-service-instance"
        ∧ app.network = none
        ∧ (∀ svc ∈ app.services, svc.replicas = 1 ∧ svc.sharePidNamespace = false
            ∧ (∀ c ∈ svc.containers, c.containerLogSize = "100 MB"
                ∧ c.containerLogArchive = false ∧ c.shutdownTimeout = "10s"
                ∧ c.approle = "" ∧ c.onMountedFileChange = none)))
      ∧ (∀ n, alookup (annsOf md) "avassa.replicas" = some (.int n) →
          ∀ svc ∈ app.services, svc.replicas = n)
      ∧ (∀ b, alookup (annsOf md) "avassa.share-pid-namespace" = some (.bool b) →
          ∀ svc ∈ app.services, svc.sharePidNamespace = b)
      ∧ (∀ v, alookup (annsOf md) "avassa.log-size" = some (.str v) → goTrimSpace v ≠ "" →
          ∀ svc ∈ app.services, ∀ c ∈ svc.containers, c.containerLogSize = v)
      ∧ (∀ b, alookup (annsOf md) "avassa.log-archive" = some (.bool b) →
          ∀ svc ∈ app.services, ∀ c ∈ svc.containers, c.containerLogArchive = b)
      ∧ (∀ v, alookup (annsOf md) "avassa.shutdown-timeout" = some (.str v) →
          goTrimSpace v ≠ "" →
          ∀ svc ∈ app.services, ∀ c ∈ svc.containers, c.shutdownTimeout = v)
      ∧ (∀ v, alookup (annsOf md) "avassa.on-mutable-variable-change" = some (.str v) →
          v ≠ "" → app.onMutableVariableChange = v)
      ∧ (∀ v, alookup (annsOf md) "avassa.network" = some (.str v) → v ≠ "" →
          app.network = some { sharedApplicationNetwork := v })
      ∧ (∀ v, alookup (annsOf md) "avassa.approle" = some (.str v) →
          ∀ svc ∈ app.services, ∀ c ∈ svc.containers, c.approle = v)
      ∧ (alookup (annsOf md) "avassa.on-mounted-file-change-restart" = some (.bool true) →
          ∀ svc ∈ app.services, ∀ c ∈ svc.containers,
            c.onMountedFileChange = some { restart := true })
      ∧ (alookup (annsOf md) "avassa.on-mounted-file-change-restart" = some (.bool false) →
          ∀ svc ∈ app.services, ∀ c ∈ svc.containers, c.onMountedFileChange = none)
      ∧ (alookup (annsOf md) "avassa.network" = none → app.network = none)
      ∧ (alookup (annsOf md) "avassa.approle" = none →
          ∀ svc ∈ app.services, ∀ c ∈ svc.containers, c.approle = "")
      ∧ (alookup (annsOf md) "avassa.on-mounted-file-change-restart" = none →
          ∀ svc ∈ app.services, ∀ c ∈ svc.containers, c.onMountedFileChange = none) := by
  intro md wn cs sf app hb
  obtain ⟨hmv, hnet, acs, hloop, hsvcs⟩ := buildAvassaApplication_shape md wn cs sf app hb
  have hmemsvc : ∀ svc ∈ app.services, svc.replicas
        = asInt (alookup (annsOf md) "avassa.replicas") 1
      ∧ svc.sharePidNamespace = asBool (alookup (annsOf md) "avassa.share-pid-namespace") false
      ∧ svc.containers = acs := by
    intro svc hsvc
    rw [hsvcs, List.mem_singleton] at hsvc
    subst hsvc
    exact ⟨rfl, rfl, rfl⟩
  have hmemc : ∀ svc ∈ app.services, ∀ c ∈ svc.containers,
      c.containerLogSize = firstNonEmpty [asString (alookup (annsOf md) "avassa.log-size"), "100 MB"]
      ∧ c.containerLogArchive = asBool (alookup (annsOf md) "avassa.log-archive") false
      ∧ c.shutdownTimeout =
          firstNonEmpty [asString (alookup (annsOf md) "avassa.shutdown-timeout"), "10s"]
      ∧ c.approle = asString (alookup (annsOf md) "avassa.approle")
      ∧ c.onMountedFileChange =
          (if asBool (alookup (annsOf md) "avassa.on-mounted-file-change-restart") false then
            some { restart := true }
          else none) := by
    intro svc hsvc c hc
    rw [(hmemsvc svc hsvc).2.2] at hc
    obtain ⟨p, _, hpok⟩ := buildContainersLoop_mem (annsOf md) wn sf (sortByKey cs) acs hloop c hc
    obtain ⟨_, h2, h3, h4, h5, h6⟩ := buildOneContainer_fields _ _ _ _ _ _ hpok
    exact ⟨h2, h3, h4, h5, h6⟩
  refine ⟨?_, ?_, ?_, ?_, ?_, ?_, ?_, ?_, ?_, ?_, ?_, ?_, ?_, ?_⟩
  · intro hno
    have l1 := hno "avassa.on-mutable-variable-change" (by simp [avassaAnnKeys])
    have l2 := hno "avassa.network" (by simp [avassaAnnKeys])
    have l3 := hno "avassa.replicas" (by simp [avassaAnnKeys])
    have l4 := hno "avassa.share-pid-namespace" (by simp [avassaAnnKeys])
    have l5 := hno "avassa.log-size" (by simp [avassaAnnKeys])
    have l6 := hno "avassa.log-archive" (by simp [avassaAnnKeys])
    have l7 := hno "avassa.shutdown-timeout" (by simp [avassaAnnKeys])
    have l8 := hno "avassa.approle" (by simp [avassaAnnKeys])
    have l9 := hno "avassa.on-mounted-file-change-restart" (by simp [avassaAnnKeys])
    refine ⟨by rw [hmv, l1]; simp [asString], by rw [hnet, l2]; simp [asString], ?_⟩
    intro svc hsvc
    obtain ⟨hr, hs, _⟩ := hmemsvc svc hsvc
    refine ⟨by rw [hr, l3]; rfl, by rw [hs, l4]; rfl, ?_⟩
    intro c hc
    obtain ⟨f1, f2, f3, f4, f5⟩ := hmemc svc hsvc c hc
    refine ⟨by rw [f1, l5]; rfl, by rw [f2, l6]; rfl, by rw [f3, l7]; rfl,
      by rw [f4, l8]; rfl, by rw [f5, l9]; rfl⟩
  · intro n ha svc hsvc
    rw [(hmemsvc svc hsvc).1, ha]
    rfl
  · intro b ha svc hsvc
    rw [(hmemsvc svc hsvc).2.1, ha]
    rfl
  · intro v ha hv svc hsvc c hc
    rw [(hmemc svc hsvc c hc).1, ha]
    simp [firstNonEmpty, asString, hv]
  · intro b ha svc hsvc c hc
    rw [(hmemc svc hsvc c hc).2.1, ha]
    rfl
  · intro v ha hv svc hsvc c hc
    rw [(hmemc svc hsvc c hc).2.2.1, ha]
    simp [firstNonEmpty, asString, hv]
  · intro v ha hv
    rw [hmv, ha]
    simp [asString, hv]
  · intro v ha hv
    rw [hnet, ha]
    simp [asString, hv]
  · intro v ha svc hsvc c hc
    rw [(hmemc svc hsvc c hc).2.2.2.1, ha]
    rfl
  · intro ha svc hsvc c hc
    rw [(hmemc svc hsvc c hc).2.2.2.2, ha]
    rfl
  · intro ha svc hsvc c hc
    rw [(hmemc svc hsvc c hc).2.2.2.2, ha]
    rfl
  · intro ha
    rw [hnet, ha]
    simp [asString]
  · intro ha svc hsvc c hc
    rw [(hmemc svc hsvc c hc).2.2.2.1, ha]
    rfl
  · intro ha svc hsvc c hc
    rw [(hmemc svc hsvc c hc).2.2.2.2, ha]
    rfl




/-- Claim C3 witness: a workload with no annotations synthesizes with all the
documented defaults. -/
theorem c3_witness :
    buildAvassaApplication [("name", .str "example")] "example" [("main", { image := "img" })]
      (fun r => .error r) = .ok c3ExampleApp
    ∧ c3ExampleApp.onMutableVariableChange = "restart-service-instance"
    ∧ c3ExampleApp.network = none := by
  have hb : buildAvassaApplication [("name", .str "example")] "example"
      [("main", { image := "img" })] (fun r => .error r) = .ok c3ExampleApp := rfl
  have h := (c3_annotation_defaults [("name", .str "example")] "example"
    [("main", { image := "img" })] (fun r => .error r) _ hb).1 (fun k hk => rfl)
  exact ⟨hb, h.1, h.2.1⟩



/-! ## Claim C1: manifest emission order -/

/-- Claim C1 (code bug): the manifest emission of `generateCmd` iterates the
Go map `currentState.Workloads`, whose iteration order the runtime randomizes
and which the code does not sort, so the emitted bytes depend on the iteration
order: the same two-workload state emitted under two legal iteration orders
(permutations of the same map entries) produces different output, refuting
the claimed stable name-sorted order and byte-identical reruns.  The `---`
separator is written before each document, as claimed. -/
theorem c1_emission_depends_on_iteration_order :
    emitManifestDocs [("a", .map [("name", .str "a")]), ("b", .map [("name", .str "b")])]
      ≠ emitManifestDocs [("b", .map [("name", .str "b")]), ("a", .map [("name", .str "a")])]
    ∧ List.Perm [("a", GoVal.map [("name", .str "a")]), ("b", GoVal.map [("name", .str "b")])]
        [("b", GoVal.map [("name", .str "b")]), ("a", GoVal.map [("name", .str "a")])]
    ∧ emitManifestDocs [("a", .map [("name", .str "a")])]
        = "---\n" ++ renderVal (emitNode (.map [("name", .str "a")]) "") := by
  refine ⟨by decide, ?_, rfl⟩
  exact List.Perm.swap _ _ _



/-! ## Claim C7: serializer key ordering -/

theorem charListLe_total : ∀ (l m : List Char), charListLe l m = true ∨ charListLe m l = true
  | [], _ => Or.inl rfl
  | _ :: _, [] => Or.inr rfl
  | a :: as, b :: bs => by
    by_cases h1 : a.toNat < b.toNat
    · left
      simp [charListLe, h1]
    · by_cases h2 : b.toNat < a.toNat
      · right
        simp [charListLe, h2]
      · rcases charListLe_total as bs with h | h
        · left
          simp [charListLe, h1, h2, h]
        · right
          simp [charListLe, h1, h2, h]

theorem charListLe_trans : ∀ (l m n : List Char), charListLe l m = true →
    charListLe m n = true → charListLe l n = true
  | [], _, _ => fun _ _ => rfl
  | _ :: _, [], _ => fun h _ => by simp [charListLe] at h
  | _ :: _, _ :: _, [] => fun _ h => by simp [charListLe] at h
  | a :: as, b :: bs, c :: cs => fun h1 h2 => by
    simp only [charListLe] at h1 h2 ⊢
    by_cases hab : a.toNat < b.toNat
    · by_cases hbc : b.toNat < c.toNat
      · have hac : a.toNat < c.toNat := Nat.lt_trans hab hbc
        simp [hac]
      · by_cases hcb : c.toNat < b.toNat
        · simp [hbc, hcb] at h2
        · have hac : a.toNat < c.toNat := by omega
          simp [hac]
    · by_cases hba : b.toNat < a.toNat
      · simp [hab, hba] at h1
      · simp only [if_neg hab, if_neg hba] at h1
        by_cases hbc : b.toNat < c.toNat
        · have hac : a.toNat < c.toNat := by omega
          simp [hac]
        · by_cases hcb : c.toNat < b.toNat
          · simp [hbc, hcb] at h2
          · simp only [if_neg hbc, if_neg hcb] at h2
            have hac1 : ¬ a.toNat < c.toNat := by omega
            have hac2 : ¬ c.toNat < a.toNat := by omega
            simp only [if_neg hac1, if_neg hac2]
            exact charListLe_trans as bs cs h1 h2

theorem strLe_total (a b : String) : strLe a b = true ∨ strLe b a = true :=
  charListLe_total a.toList b.toList

theorem strLe_trans {a b c : String} (h1 : strLe a b = true) (h2 : strLe b c = true) :
    strLe a c = true :=
  charListLe_trans a.toList b.toList c.toList h1 h2

theorem mem_keysOf_insertByKey {α : Type} {x : String} {p : String × α}
    {l : List (String × α)} :
    x ∈ keysOf (insertByKey p l) ↔ x = p.1 ∨ x ∈ keysOf l := by
  simp only [keysOf, List.mem_map]
  constructor
  · rintro ⟨q, hq, rfl⟩
    rcases mem_insertByKey.mp hq with h | h
    · subst h
      exact Or.inl rfl
    · exact Or.inr ⟨q, h, rfl⟩
  · rintro (rfl | ⟨q, hq, rfl⟩)
    · exact ⟨p, mem_insertByKey.mpr (Or.inl rfl), rfl⟩
    · exact ⟨q, mem_insertByKey.mpr (Or.inr hq), rfl⟩

theorem sorted_keys_insertByKey {α : Type} (p : String × α) :
    ∀ (l : List (String × α)),
      (keysOf l).Sorted (fun a b => strLe a b = true) →
      (keysOf (insertByKey p l)).Sorted (fun a b => strLe a b = true) := by
  intro l
  induction l with
  | nil =>
    intro _
    simp [insertByKey, keysOf]
  | cons q rest ih =>
    intro h
    rw [show keysOf (q :: rest) = q.1 :: keysOf rest from rfl, List.sorted_cons] at h
    rw [insertByKey]
    split
    · rw [show keysOf (p :: q :: rest) = p.1 :: q.1 :: keysOf rest from rfl, List.sorted_cons]
      refine ⟨?_, by rw [List.sorted_cons]; exact h⟩
      intro b hb
      rcases List.mem_cons.mp hb with hb | hb
      · subst hb
        assumption
      · exact strLe_trans (by assumption) (h.1 b hb)
    · rw [show keysOf (q :: insertByKey p rest) = q.1 :: keysOf (insertByKey p rest) from rfl,
        List.sorted_cons]
      refine ⟨?_, ih h.2⟩
      intro b hb
      rcases mem_keysOf_insertByKey.mp hb with hb | hb
      · subst hb
        rcases strLe_total p.1 q.1 with ht | ht
        · exact absurd ht (by assumption)
        · exact ht
      · exact h.1 b hb

theorem sorted_keys_sortByKey {α : Type} :
    ∀ (l : List (String × α)), (keysOf (sortByKey l)).Sorted (fun a b => strLe a b = true) := by
  intro l
  induction l with
  | nil => simp [sortByKey, keysOf]
  | cons p rest ih => exact sorted_keys_insertByKey p (sortByKey rest) ih

theorem mem_moveNameFirst {q : String × GoVal} {l : List (String × GoVal)}
    (h : q ∈ moveNameFirst l) : q ∈ l := by
  rw [moveNameFirst] at h
  cases hf : l.find? (fun p => p.1 = "name") with
  | none =>
    rw [hf] at h
    exact h
  | some p =>
    rw [hf] at h
    rcases List.mem_cons.mp h with hq | hq
    · subst hq
      exact List.mem_of_find?_eq_some hf
    · exact (List.eraseP_sublist l).subset hq

theorem mem_arrangeKeys {q : String × GoVal} {pk : String} {kvs : List (String × GoVal)}
    (h : q ∈ arrangeKeys pk kvs) : q ∈ kvs := by
  rw [arrangeKeys] at h
  split at h
  · exact mem_sortByKey.mp (mem_moveNameFirst h)
  · exact mem_sortByKey.mp h

theorem keysLexSorted_arrangeKeys {pk : String} {kvs : List (String × GoVal)}
    (hpk : pk ≠ "containers") : KeysLexSorted (arrangeKeys pk kvs) := by
  rw [arrangeKeys, if_neg hpk]
  exact sorted_keys_sortByKey kvs

theorem keysNameFirst_arrangeKeys (kvs : List (String × GoVal)) :
    KeysNameFirst (arrangeKeys "containers" kvs) := by
  rw [arrangeKeys, if_pos rfl, moveNameFirst]
  cases hf : (sortByKey kvs).find? (fun p => p.1 = "name") with
  | none =>
    have hnn : "name" ∉ keysOf (sortByKey kvs) := by
      intro hmem
      simp only [keysOf, List.mem_map] at hmem
      obtain ⟨p, hp, hp1⟩ := hmem
      have := List.find?_eq_none.mp hf p hp
      simp [hp1] at this
    exact ⟨fun h => absurd h hnn, fun _ => sorted_keys_sortByKey kvs⟩
  | some p =>
    have hp1 : p.1 = "name" := by
      have := List.find?_some hf
      simpa using this
    have hkeys : keysOf (p :: (sortByKey kvs).eraseP (fun q => q.1 = "name"))
        = "name" :: keysOf ((sortByKey kvs).eraseP (fun q => q.1 = "name")) := by
      rw [show keysOf (p :: (sortByKey kvs).eraseP (fun q => q.1 = "name"))
        = p.1 :: keysOf ((sortByKey kvs).eraseP (fun q => q.1 = "name")) from rfl, hp1]
    have hsorted : (keysOf ((sortByKey kvs).eraseP (fun q => q.1 = "name"))).Sorted
        (fun a b => strLe a b = true) := by
      have hsub : List.Sublist (keysOf ((sortByKey kvs).eraseP (fun q => q.1 = "name")))
          (keysOf (sortByKey kvs)) :=
        List.Sublist.map Prod.fst (List.eraseP_sublist _)
      exact List.Pairwise.sublist hsub (sorted_keys_sortByKey kvs)
    constructor
    · intro _
      exact ⟨keysOf ((sortByKey kvs).eraseP (fun q => q.1 = "name")), hkeys, hsorted⟩
    · intro hnn
      rw [hkeys] at hnn
      exact absurd (List.mem_cons_self _ _) hnn

theorem mem_emitNodePairs {p : String × GoVal} :
    ∀ {kvs : List (String × GoVal)}, p ∈ emitNodePairs kvs →
      ∃ kv ∈ kvs, p = (kv.1, emitNode kv.2 kv.1) := by
  intro kvs
  induction kvs with
  | nil =>
    intro h
    simp [emitNodePairs] at h
  | cons q rest ih =>
    obtain ⟨k, v⟩ := q
    intro h
    rw [show emitNodePairs ((k, v) :: rest) = (k, emitNode v k) :: emitNodePairs rest from rfl] at h
    rcases List.mem_cons.mp h with h1 | h1
    · exact ⟨(k, v), List.mem_cons_self _ _, h1⟩
    · obtain ⟨kv, hkv, heq⟩ := ih h1
      exact ⟨kv, List.mem_cons_of_mem _ hkv, heq⟩

theorem wfDocPairs_mem :
    ∀ {kvs : List (String × GoVal)}, wfDocPairs kvs = true →
      ∀ p ∈ kvs, wfDoc p.2 = true ∧ (p.1 = "containers" → isSeqOfMaps p.2 = true) := by
  intro kvs
  induction kvs with
  | nil =>
    intro _ p hp
    simp at hp
  | cons q rest ih =>
    obtain ⟨k, v⟩ := q
    intro h p hp
    rw [show wfDocPairs ((k, v) :: rest)
      = ((if k = "containers" then isSeqOfMaps v else true) && wfDoc v && wfDocPairs rest)
      from rfl] at h
    simp only [Bool.and_eq_true] at h
    rcases List.mem_cons.mp hp with h1 | h1
    · subst h1
      refine ⟨h.1.2, ?_⟩
      intro hk
      have := h.1.1
      rw [if_pos hk] at this
      exact this
    · exact ih h.2 p h1

theorem wfDocList_mem :
    ∀ {xs : List GoVal}, wfDocList xs = true → ∀ x ∈ xs, wfDoc x = true := by
  intro xs
  induction xs with
  | nil =>
    intro _ x hx
    simp at hx
  | cons y rest ih =>
    intro h x hx
    rw [show wfDocList (y :: rest) = (wfDoc y && wfDocList rest) from rfl] at h
    simp only [Bool.and_eq_true] at h
    rcases List.mem_cons.mp hx with h1 | h1
    · subst h1
      exact h.1
    · exact ih h.2 x h1



mutual

theorem emitOkAux : ∀ (v : GoVal) (pk : String), wfDoc v = true → pk ≠ "containers" →
    OrderOK (emitNode v pk)
  | .null, _, _, _ => OrderOK.null
  | .bool b, _, _, _ => OrderOK.bool b
  | .int n, _, _, _ => OrderOK.int n
  | .str s, _, _, _ => OrderOK.str s
  | .seq xs, pk, h, hpk =>
    OrderOK.seq (emitNodeList xs pk) (emitListOkAux xs pk h hpk)
  | .map kvs, pk, h, hpk => by
    show OrderOK (.map (arrangeKeys pk (emitNodePairs kvs)))
    refine OrderOK.map _ (keysLexSorted_arrangeKeys hpk) ?_ ?_
    · intro p hp hpc
      exact ((emitPairsChildAux kvs h) p (mem_arrangeKeys hp)).1 hpc
    · intro p hp hpc
      exact ((emitPairsChildAux kvs h) p (mem_arrangeKeys hp)).2 hpc

theorem emitListOkAux : ∀ (xs : List GoVal) (pk : String), wfDocList xs = true →
    pk ≠ "containers" → ∀ y ∈ emitNodeList xs pk, OrderOK y
  | [], _, _, _ => by
    intro y hy
    simp [emitNodeList] at hy
  | x :: xs, pk, h, hpk => by
    intro y hy
    have hc : wfDoc x = true ∧ wfDocList xs = true := by
      rw [show wfDocList (x :: xs) = (wfDoc x && wfDocList xs) from rfl] at h
      simpa using h
    rw [show emitNodeList (x :: xs) pk = emitNode x pk :: emitNodeList xs pk from rfl] at hy
    rcases List.mem_cons.mp hy with h1 | h1
    · subst h1
      exact emitOkAux x pk hc.1 hpk
    · exact emitListOkAux xs pk hc.2 hpk y h1

theorem emitCVAux : ∀ (v : GoVal), wfDoc v = true → isSeqOfMaps v = true →
    OrderContainersVal (emitNode v "containers")
  | .seq xs, h, hsom => by
    show OrderContainersVal (.seq (emitNodeList xs "containers"))
    refine OrderContainersVal.seq _ ?_
    have hm : ∀ x ∈ xs, isMapVal x = true := by
      rw [show isSeqOfMaps (.seq xs) = xs.all isMapVal from rfl] at hsom
      simpa [List.all_eq_true] using hsom
    exact emitInCtAux xs h hm
  | .null, _, hsom => by simp [isSeqOfMaps] at hsom
  | .bool b, _, hsom => by simp [isSeqOfMaps] at hsom
  | .int n, _, hsom => by simp [isSeqOfMaps] at hsom
  | .str s, _, hsom => by simp [isSeqOfMaps] at hsom
  | .map kvs, _, hsom => by simp [isSeqOfMaps] at hsom

theorem emitInCtAux : ∀ (xs : List GoVal), wfDocList xs = true →
    (∀ x ∈ xs, isMapVal x = true) → ∀ y ∈ emitNodeList xs "containers", OrderInContainers y
  | [], _, _ => by
    intro y hy
    simp [emitNodeList] at hy
  | .map kvs :: xs, h, hm => by
    intro y hy
    have hc : wfDoc (.map kvs) = true ∧ wfDocList xs = true := by
      rw [show wfDocList (.map kvs :: xs) = (wfDoc (.map kvs) && wfDocList xs) from rfl] at h
      simpa using h
    rcases List.mem_cons.mp hy with h1 | h1
    · subst h1
      show OrderInContainers (.map (arrangeKeys "containers" (emitNodePairs kvs)))
      refine OrderInContainers.map _ (keysNameFirst_arrangeKeys (emitNodePairs kvs)) ?_ ?_
      · intro p hp hpc
        exact ((emitPairsChildAux kvs hc.1) p (mem_arrangeKeys hp)).1 hpc
      · intro p hp hpc
        exact ((emitPairsChildAux kvs hc.1) p (mem_arrangeKeys hp)).2 hpc
    · exact emitInCtAux xs hc.2 (fun x hx => hm x (List.mem_cons_of_mem _ hx)) y h1
  | .null :: xs, _, hm => by
    have := hm .null (List.mem_cons_self _ _)
    simp [isMapVal] at this
  | .bool b :: xs, _, hm => by
    have := hm (.bool b) (List.mem_cons_self _ _)
    simp [isMapVal] at this
  | .int n :: xs, _, hm => by
    have := hm (.int n) (List.mem_cons_self _ _)
    simp [isMapVal] at this
  | .str s :: xs, _, hm => by
    have := hm (.str s) (List.mem_cons_self _ _)
    simp [isMapVal] at this
  | .seq ys :: xs, _, hm => by
    have := hm (.seq ys) (List.mem_cons_self _ _)
    simp [isMapVal] at this

theorem emitPairsChildAux : ∀ (kvs : List (String × GoVal)), wfDocPairs kvs = true →
    ∀ p ∈ emitNodePairs kvs,
      (p.1 = "containers" → OrderContainersVal p.2) ∧ (p.1 ≠ "containers" → OrderOK p.2)
  | [], _ => by
    intro p hp
    simp [emitNodePairs] at hp
  | (k, v) :: rest, h => by
    intro p hp
    have hc : (if k = "containers" then isSeqOfMaps v else true) = true
        ∧ wfDoc v = true ∧ wfDocPairs rest = true := by
      rw [show wfDocPairs ((k, v) :: rest)
        = ((if k = "containers" then isSeqOfMaps v else true) && wfDoc v && wfDocPairs rest)
        from rfl] at h
      simpa [and_assoc] using h
    rw [show emitNodePairs ((k, v) :: rest)
      = (k, emitNode v k) :: emitNodePairs rest from rfl] at hp
    rcases List.mem_cons.mp hp with h1 | h1
    · subst h1
      constructor
      · intro hpc
        have hkc : k = "containers" := hpc
        have hsom : isSeqOfMaps v = true := by
          have := hc.1
          rw [if_pos hkc] at this
          exact this
        show OrderContainersVal (emitNode v k)
        rw [hkc]
        exact emitCVAux v hc.2.1 hsom
      · intro hpc
        exact emitOkAux v k hc.2.1 hpc
    · exact emitPairsChildAux rest hc.2.2 p h1

end

/-- Claim C7: within the serialized output of a well-formed manifest (every
value of a "containers" key is a list of objects, as synthesized manifests
are), every object that appears inside a containers list has its `name` key
emitted first and all other keys in lexicographic order, and every object
outside that context has all keys emitted in lexicographic order. -/
theorem c7_serializer_key_order :
    ∀ (doc : GoVal), wfDoc doc = true → OrderOK (emitNode doc "") :=
  fun doc h => emitOkAux doc "" h (by decide)

/-- Claim C7 witness: the ordering contract evaluated on a concrete manifest
with a containers list. -/
theorem c7_witness :
    wfDoc (GoVal.map [("services", .seq [.map [("containers",
        .seq [.map [("name", .str "m"), ("image", .str "i")]]), ("name", .str "s")]]),
        ("name", .str "a")]) = true
    ∧ OrderOK (emitNode (GoVal.map [("services", .seq [.map [("containers",
        .seq [.map [("name", .str "m"), ("image", .str "i")]]), ("name", .str "s")]]),
        ("name", .str "a")]) "") :=
  ⟨rfl, c7_serializer_key_order _ rfl⟩


end AvassaConv
